import Mathlib

/-!
Shallow embedding of the shared Futu market-data connection and
subscription manager (src/backend/app/utils/futu_data.py).

The Python module keeps a process-wide dict `_active_subscriptions`
mapping `(code, sub_type)` to a last-used timestamp, bounded by the
quota from `_get_subscription_limit()`.  `_subscribe_if_needed`
refreshes timestamps of already-subscribed codes, evicts the
least-recently-used entries via `_evict_old_subscriptions_if_needed`,
and issues the gateway subscribe call.  `get_quote_context` /
`_reset_quote_context` / `close_quote_context` manage the shared
connection and clear the ledger.  `get_market_snapshots_by_futu_codes`
batches bulk snapshot reads in chunks of at most 400 codes.

Modelling choices: Python dicts become association lists that preserve
insertion order (updating an existing key keeps its position, a new key
is appended) because `sorted` is stable and tie-breaking therefore
depends on insertion order; `time.time()` float timestamps become `Nat`
(only their ordering matters); the gateway is an oracle supplied as an
argument (`Gateway` for subscribe/unsubscribe, an indexed response
function for snapshot queries); a raised exception in `unsubscribe` is
the oracle answering `false`; instrument code strings are an arbitrary
type with decidable equality.  Every function returns, alongside its
result, the list of gateway calls it issued, so that claims about the
number and order of network calls can be stated.
-/

namespace FutuData

/-- futu's `RET_OK` return code (the module compares `ret == RET_OK`). -/
def RET_OK : Int := 0

/-- The feed types (`SubType`) the module uses: `SubType.QUOTE`,
`SubType.RT_DATA`; one further constructor stands for any other value of
the futu enumeration. -/
inductive SubType
  | QUOTE
  | RT_DATA
  | ORDER_BOOK
  deriving DecidableEq, Repr

/-- Lookup in an insertion-ordered dict (first binding of the key). -/
def dlookup {K V : Type} [DecidableEq K] : List (K × V) → K → Option V
  | [], _ => none
  | p :: rest, k => if p.1 = k then some p.2 else dlookup rest k

/-- `d[k] = v` on a Python dict: an existing key keeps its position and
gets the new value, a new key is appended at the end. -/
def dinsert {K V : Type} [DecidableEq K] (l : List (K × V)) (k : K) (v : V) :
    List (K × V) :=
  if (dlookup l k).isSome then
    l.map (fun p => if p.1 = k then (k, v) else p)
  else
    l ++ [(k, v)]

/-- `d.pop(k, None)` on a Python dict: remove the binding of `k`. -/
def dpop {K V : Type} [DecidableEq K] (l : List (K × V)) (k : K) : List (K × V) :=
  l.filter (fun p => p.1 ≠ k)

/-- The keys of a dict, in insertion order. -/
def dkeys {K V : Type} (l : List (K × V)) : List K := l.map Prod.fst

/-- The subscription Ledger: `_active_subscriptions`, a dict from
`(code, sub_type)` to last-used timestamp. -/
abbrev Ledger (χ : Type) : Type := List ((χ × SubType) × Nat)

/-- `_sub_key`. -/
def sub_key {χ : Type} (code : χ) (st : SubType) : χ × SubType := (code, st)

/-- `_get_subscription_limit`: `max(1, int(env))`, default / exception
fallback 300.  `none` models an unset or unparsable environment value. -/
def get_subscription_limit (env : Option Int) : Int :=
  match env with
  | some v => max 1 v
  | none => 300

/-- The gateway oracle for the subscription path: whether an
`unsubscribe` call succeeds (`false` = the call raises, which the code
catches and logs), and the return code of a `subscribe` call. -/
structure Gateway (χ : Type) where
  unsubOk : List χ → SubType → Bool
  subscribeRet : List χ → SubType → Int

/-- A gateway call issued by the subscription path. -/
inductive GwCall (χ : Type)
  | unsubscribe (codes : List χ) (st : SubType)
  | subscribe (codes : List χ) (st : SubType)
  deriving DecidableEq, Repr

/-- The victim-selection block of `_evict_old_subscriptions_if_needed`
(lines 69-79): same-feed-type entries sorted ascending by timestamp,
truncated to `needRelease`; if too few, topped up with the oldest
entries of the other feed types.  Python's `sorted` is a stable sort;
`List.insertionSort` is also stable, and a stable sort on the `a.2`
key is unique, so it models `sorted(..., key=lambda x: x[1])` exactly. -/
def select_victims {χ : Type} [DecidableEq χ] (ledger : Ledger χ)
    (st : SubType) (needRelease : Nat) : Ledger χ :=
  let sameType := List.insertionSort (fun a b => a.2 ≤ b.2)
    (ledger.filter (fun p => p.1.2 = st))
  let candidates := sameType.take needRelease
  if candidates.length < needRelease then
    let others := List.insertionSort (fun a b => a.2 ≤ b.2)
      (ledger.filter (fun p => ¬ p.1.2 = st))
    candidates ++ others.take (needRelease - candidates.length)
  else
    candidates

/-- One step of building `grouped_codes` via `setdefault(...).append(...)`:
append the code to the group of its feed type, or start a new group at
the end (Python dicts iterate in insertion order). -/
def add_to_group {χ : Type} (groups : List (SubType × List χ)) (st : SubType)
    (c : χ) : List (SubType × List χ) :=
  match groups with
  | [] => [(st, [c])]
  | (st', cs) :: rest =>
    if st' = st then (st', cs ++ [c]) :: rest
    else (st', cs) :: add_to_group rest st c

/-- `grouped_codes` of `_evict_old_subscriptions_if_needed` (lines 81-83):
victims grouped by their (old) feed type, groups in first-occurrence
order, codes in candidate order. -/
def group_by_type {χ : Type} (candidates : Ledger χ) : List (SubType × List χ) :=
  candidates.foldl (fun acc p => add_to_group acc p.1.2 p.1.1) []

/-- The body of the per-group loop of `_evict_old_subscriptions_if_needed`
(lines 85-96): skip empty groups, issue one `unsubscribe` per group; on
failure keep the group's ledger entries and continue, on success pop
them. -/
def evict_step {χ : Type} [DecidableEq χ] (gw : Gateway χ)
    (acc : Ledger χ × List (GwCall χ)) (g : SubType × List χ) :
    Ledger χ × List (GwCall χ) :=
  if g.2.isEmpty then acc
  else if gw.unsubOk g.2 g.1 then
    (g.2.foldl (fun l c => dpop l (sub_key c g.1)) acc.1,
     acc.2 ++ [GwCall.unsubscribe g.2 g.1])
  else
    (acc.1, acc.2 ++ [GwCall.unsubscribe g.2 g.1])

/-- `_evict_old_subscriptions_if_needed`: release least-recently-used
subscriptions before subscribing `incomingCount` new codes, so as not
to exceed the quota.  Returns the new ledger and the gateway calls
issued. -/
def evict_old_subscriptions_if_needed {χ : Type} [DecidableEq χ]
    (gw : Gateway χ) (limit : Nat) (ledger : Ledger χ) (st : SubType)
    (incomingCount : Nat) : Ledger χ × List (GwCall χ) :=
  if incomingCount = 0 then (ledger, [])
  else
    let used := ledger.length
    let available := limit - used
    let needRelease := incomingCount - available
    if needRelease = 0 then (ledger, [])
    else
      let groups := group_by_type (select_victims ledger st needRelease)
      groups.foldl (evict_step gw) (ledger, [])

/-- The `need_subscribe` list of `_subscribe_if_needed` (lines 107-112):
the codes whose `(code, sub_type)` key is not yet in the ledger.  The
Python loop checks membership against the live dict, but the refresh
updates in the same loop never add or remove keys, so membership in the
original ledger is equivalent. -/
def need_subscribe_list {χ : Type} [DecidableEq χ] (ledger : Ledger χ)
    (codeList : List χ) (st : SubType) : List χ :=
  codeList.filter (fun c => (dlookup ledger (sub_key c st)).isNone)

/-- The refresh part of the same loop (lines 113-115): every code of
`codeList` that is already subscribed gets its last-used timestamp set
to `now`. -/
def refresh_subscriptions {χ : Type} [DecidableEq χ] (ledger : Ledger χ)
    (codeList : List χ) (st : SubType) (now : Nat) : Ledger χ :=
  codeList.foldl
    (fun l c =>
      if (dlookup l (sub_key c st)).isSome then dinsert l (sub_key c st) now
      else l)
    ledger

/-- `_subscribe_if_needed`: refresh the timestamps of already-subscribed
codes, evict if needed, subscribe the missing codes, and record them in
the ledger on success.  Returns the return code, the new ledger, and
the gateway calls issued. -/
def subscribe_if_needed {χ : Type} [DecidableEq χ] (gw : Gateway χ)
    (limit : Nat) (ledger : Ledger χ) (codeList : List χ) (st : SubType)
    (now : Nat) : Int × Ledger χ × List (GwCall χ) :=
  if codeList.isEmpty then (RET_OK, ledger, [])
  else
    let needSubscribe := need_subscribe_list ledger codeList st
    let refreshed := refresh_subscriptions ledger codeList st now
    if needSubscribe.isEmpty then (RET_OK, refreshed, [])
    else
      let ev := evict_old_subscriptions_if_needed gw limit refreshed st
        needSubscribe.length
      let ret := gw.subscribeRet needSubscribe st
      if ret = RET_OK then
        (ret,
         needSubscribe.foldl (fun l c => dinsert l (sub_key c st) now) ev.1,
         ev.2 ++ [GwCall.subscribe needSubscribe st])
      else
        (ret, ev.1, ev.2 ++ [GwCall.subscribe needSubscribe st])

/-- One `_subscribe_if_needed` call of a scenario: its gateway oracle,
code list, feed type and wall-clock time. -/
structure CallSpec (χ : Type) where
  gw : Gateway χ
  codes : List χ
  st : SubType
  now : Nat

/-- Run a sequence of `_subscribe_if_needed` calls on a ledger, keeping
only the ledger state. -/
def run_calls {χ : Type} [DecidableEq χ] (limit : Nat)
    (calls : List (CallSpec χ)) : Ledger χ :=
  calls.foldl
    (fun l c => (subscribe_if_needed c.gw limit l c.codes c.st c.now).2.1) []

/-- The process-wide connection state: `_quote_ctx` / `_quote_ctx_created_at`
(`some t` = an active context created at time `t`, `none` = absent) and
the ledger `_active_subscriptions`. -/
structure GlobalState (χ : Type) where
  connCreatedAt : Option Nat
  ledger : Ledger χ
  deriving DecidableEq, Repr

/-- `get_quote_context`: recycle an active context whose age reached
`maxAgeSec` (aging enabled when `maxAgeSec > 0`), clearing the ledger;
then create a context if absent.  Only the creation after a recycle
clears the ledger — plain creation from `none` keeps whatever ledger is
there (in the Python module it is already empty in that state). -/
def get_quote_context {χ : Type} (gs : GlobalState χ) (now : Nat)
    (maxAgeSec : Int) : GlobalState χ :=
  match gs.connCreatedAt with
  | some t0 =>
    if 0 < maxAgeSec ∧ maxAgeSec ≤ (now : Int) - (t0 : Int) then
      { connCreatedAt := some now, ledger := [] }
    else gs
  | none => { connCreatedAt := some now, ledger := gs.ledger }

/-- `_reset_quote_context`: close and drop the context and replace the
ledger by an empty dict. -/
def reset_quote_context {χ : Type} (_gs : GlobalState χ) : GlobalState χ :=
  { connCreatedAt := none, ledger := [] }

/-- `close_quote_context`: shutdown hook, delegates to the reset. -/
def close_quote_context {χ : Type} (gs : GlobalState χ) : GlobalState χ :=
  reset_quote_context gs

/-- The response of one `get_market_snapshot` gateway call: `raise`
models a transport-level exception, `ret` a normal `(ret_code, data)`
reply whose data is the list of returned rows. -/
inductive SnapResp (ρ : Type)
  | raise
  | ret (code : Int) (data : List ρ)

/-- How a `get_market_snapshots_by_futu_codes` call ends when it does
not produce rows: a propagated transport exception, or the
`Exception("获取市场快照失败: ...")` the function raises itself on a
non-OK return code. -/
inductive SnapErr
  | transport
  | logical
  deriving DecidableEq, Repr

/-- The slices `code_list[start:start+k]` for `start in range(0, len, k)`
with chunk size `k = n + 1`, driven by a fuel argument so the recursion
is structural (one chunk consumes at least one element, so a fuel of
`l.length` never runs out). -/
def chunk_list_fuel {χ : Type} (n : Nat) : Nat → List χ → List (List χ)
  | _, [] => []
  | 0, _ :: _ => []
  | fuel + 1, x :: xs => (x :: xs).take (n + 1) :: chunk_list_fuel n fuel (xs.drop n)

/-- The chunk sequence of the loop, with chunk size `n + 1`. -/
def chunk_list_aux {χ : Type} (n : Nat) (l : List χ) : List (List χ) :=
  chunk_list_fuel n l.length l

/-- Chunking with an arbitrary `Nat` step.  Step `0` is unreachable in
the module (`safe_batch_size ≥ 1`; Python's `range` would raise on
step 0): it is mapped to no chunks at all. -/
def chunk_list {χ : Type} (k : Nat) (l : List χ) : List (List χ) :=
  match k with
  | 0 => []
  | n + 1 => chunk_list_aux n l

/-- `safe_batch_size = max(1, min(int(batch_size), 400))`. -/
def safe_batch_size (batchSize : Int) : Int :=
  max 1 (min batchSize 400)

/-- The chunk loop of `get_market_snapshots_by_futu_codes` (lines
243-249): one gateway query per chunk, indexed by call number; a raised
exception propagates, a non-OK return code raises; non-empty data
frames are collected in chunk order.  Returns the collected per-chunk
row lists and the queries issued. -/
def snapshot_chunk_loop {χ ρ : Type} (gwq : Nat → SnapResp ρ) :
    List (List χ) → Nat → Except SnapErr (List (List ρ)) × List (List χ)
  | [], _ => (Except.ok [], [])
  | c :: cs, i =>
    match gwq i with
    | SnapResp.raise => (Except.error SnapErr.transport, [c])
    | SnapResp.ret r data =>
      if r = RET_OK then
        let rest := snapshot_chunk_loop gwq cs (i + 1)
        (rest.1.map (fun ds => if data.isEmpty then ds else data :: ds),
         c :: rest.2)
      else
        (Except.error SnapErr.logical, [c])

/-- `get_market_snapshots_by_futu_codes`: empty input returns an empty
frame before touching the connection; otherwise acquire the shared
context, query chunk by chunk, and concatenate (`pd.concat`; with no
collected chunks, an empty frame).  Returns the rows or the error, the
connection/ledger state as the call leaves it, and the queries issued. -/
def get_market_snapshots_by_futu_codes {χ ρ : Type} (gs : GlobalState χ)
    (now : Nat) (maxAgeSec : Int) (gwq : Nat → SnapResp ρ) (codeList : List χ)
    (batchSize : Int) :
    Except SnapErr (List ρ) × GlobalState χ × List (List χ) :=
  if codeList.isEmpty then (Except.ok [], gs, [])
  else
    let gs1 := get_quote_context gs now maxAgeSec
    let r := snapshot_chunk_loop gwq
      (chunk_list (safe_batch_size batchSize).toNat codeList) 0
    (r.1.map (fun chunks => chunks.flatten), gs1, r.2)

/-- Remove a list of keys from a dict, one `pop` at a time. -/
def pop_all {K V : Type} [DecidableEq K] (l : List (K × V)) (ks : List K) :
    List (K × V) :=
  ks.foldl dpop l

/-- All `(code, feed_type)` keys covered by a victim grouping, in group
order. -/
def group_keys {χ : Type} (groups : List (SubType × List χ)) :
    List (χ × SubType) :=
  (groups.map (fun g => g.2.map (fun c => sub_key c g.1))).flatten

/-- A gateway on which every call succeeds. -/
def gw_all_ok (χ : Type) : Gateway χ :=
  { unsubOk := fun _ _ => true, subscribeRet := fun _ _ => RET_OK }

/-- A gateway whose `unsubscribe` always raises while `subscribe`
succeeds. -/
def gw_unsub_fail (χ : Type) : Gateway χ :=
  { unsubOk := fun _ _ => false, subscribeRet := fun _ _ => RET_OK }

/-- A gateway whose `subscribe` returns a logical failure while
`unsubscribe` succeeds. -/
def gw_sub_fail (χ : Type) : Gateway χ :=
  { unsubOk := fun _ _ => true, subscribeRet := fun _ _ => -1 }

/-! ### Dictionary lemmas -/

theorem dlookup_isSome_iff {K V : Type} [DecidableEq K] (l : List (K × V))
    (k : K) : (dlookup l k).isSome ↔ k ∈ dkeys l := by
  induction l with
  | nil => simp [dlookup, dkeys]
  | cons p rest ih =>
    by_cases h : p.1 = k
    · simp [dlookup, dkeys, h]
    · simp only [dlookup, dkeys, List.map_cons, List.mem_cons, if_neg h, ih]
      constructor
      · exact fun hm => Or.inr hm
      · rintro (hm | hm)
        · exact absurd hm.symm h
        · exact hm

theorem dlookup_eq_none_iff {K V : Type} [DecidableEq K] (l : List (K × V))
    (k : K) : dlookup l k = none ↔ k ∉ dkeys l := by
  rw [← dlookup_isSome_iff]
  cases dlookup l k <;> simp

theorem dlookup_append {K V : Type} [DecidableEq K] (l l' : List (K × V))
    (k : K) :
    dlookup (l ++ l') k =
      match dlookup l k with
      | some v => some v
      | none => dlookup l' k := by
  induction l with
  | nil => simp [dlookup]
  | cons p rest ih =>
    by_cases h : p.1 = k <;> simp [dlookup, h, ih]

theorem dlookup_map_update {K V : Type} [DecidableEq K] (l : List (K × V))
    (k : K) (v : V) :
    dlookup (l.map (fun p => if p.1 = k then (k, v) else p)) k =
      if (dlookup l k).isSome then some v else none := by
  induction l with
  | nil => simp [dlookup]
  | cons p rest ih =>
    by_cases h : p.1 = k
    · simp [dlookup, h]
    · simp [dlookup, h, ih]

theorem dlookup_map_update_other {K V : Type} [DecidableEq K]
    (l : List (K × V)) (k k' : K) (v : V) (hne : k' ≠ k) :
    dlookup (l.map (fun p => if p.1 = k then (k, v) else p)) k' =
      dlookup l k' := by
  induction l with
  | nil => simp [dlookup]
  | cons p rest ih =>
    by_cases h : p.1 = k
    · have h1 : ¬ k = k' := fun hk => hne hk.symm
      have h2 : ¬ p.1 = k' := by rw [h]; exact h1
      simp [dlookup, h, h1, h2, ih]
    · by_cases h' : p.1 = k' <;> simp [dlookup, h, h', hne, ih]

theorem dlookup_dinsert_self {K V : Type} [DecidableEq K] (l : List (K × V))
    (k : K) (v : V) : dlookup (dinsert l k v) k = some v := by
  unfold dinsert
  by_cases h : (dlookup l k).isSome
  · simp [h, dlookup_map_update]
  · rw [if_neg h, dlookup_append]
    have : dlookup l k = none := by
      cases hl : dlookup l k
      · rfl
      · exact absurd (by simp [hl]) h
    simp [this, dlookup]

theorem dlookup_dinsert_other {K V : Type} [DecidableEq K] (l : List (K × V))
    (k k' : K) (v : V) (hne : k' ≠ k) :
    dlookup (dinsert l k v) k' = dlookup l k' := by
  unfold dinsert
  by_cases h : (dlookup l k).isSome
  · simp [h, dlookup_map_update_other _ _ _ _ hne]
  · rw [if_neg h, dlookup_append]
    cases hl : dlookup l k'
    · have h1 : ¬ k = k' := fun hk => hne hk.symm
      simp [dlookup, h1]
    · simp

theorem dkeys_append {K V : Type} (l l' : List (K × V)) :
    dkeys (l ++ l') = dkeys l ++ dkeys l' := by
  simp [dkeys]

theorem length_dkeys {K V : Type} (l : List (K × V)) :
    (dkeys l).length = l.length := by
  simp [dkeys]

theorem dkeys_dinsert_present {K V : Type} [DecidableEq K] (l : List (K × V))
    (k : K) (v : V) (h : (dlookup l k).isSome) :
    dkeys (dinsert l k v) = dkeys l := by
  unfold dinsert
  rw [if_pos h]
  unfold dkeys
  rw [List.map_map]
  refine List.map_congr_left (fun p _ => ?_)
  by_cases hp : p.1 = k <;> simp [hp]

theorem dkeys_dinsert_absent {K V : Type} [DecidableEq K] (l : List (K × V))
    (k : K) (v : V) (h : ¬ (dlookup l k).isSome) :
    dkeys (dinsert l k v) = dkeys l ++ [k] := by
  unfold dinsert
  rw [if_neg h, dkeys_append]
  rfl

theorem length_dinsert_le {K V : Type} [DecidableEq K] (l : List (K × V))
    (k : K) (v : V) : (dinsert l k v).length ≤ l.length + 1 := by
  unfold dinsert
  by_cases h : (dlookup l k).isSome <;> simp [h]

theorem length_dinsert_present {K V : Type} [DecidableEq K] (l : List (K × V))
    (k : K) (v : V) (h : (dlookup l k).isSome) :
    (dinsert l k v).length = l.length := by
  unfold dinsert
  rw [if_pos h]
  simp

theorem nodup_dkeys_dinsert {K V : Type} [DecidableEq K] (l : List (K × V))
    (k : K) (v : V) (h : (dkeys l).Nodup) : (dkeys (dinsert l k v)).Nodup := by
  by_cases hp : (dlookup l k).isSome
  · rw [dkeys_dinsert_present _ _ _ hp]; exact h
  · rw [dkeys_dinsert_absent _ _ _ hp]
    have hk : k ∉ dkeys l := by
      rw [← dlookup_isSome_iff]; exact hp
    simp [List.nodup_append, h, hk]

theorem dpop_sublist {K V : Type} [DecidableEq K] (l : List (K × V)) (k : K) :
    (dpop l k).Sublist l :=
  List.filter_sublist l

theorem mem_dkeys_dpop {K V : Type} [DecidableEq K] (l : List (K × V))
    (k k' : K) : k' ∈ dkeys (dpop l k) ↔ k' ∈ dkeys l ∧ k' ≠ k := by
  simp only [dkeys, dpop, List.mem_map, List.mem_filter, decide_not,
    Bool.not_eq_eq_eq_not, Bool.not_true, decide_eq_false_iff_not]
  constructor
  · rintro ⟨p, ⟨hp, hne⟩, rfl⟩
    exact ⟨⟨p, hp, rfl⟩, hne⟩
  · rintro ⟨⟨p, hp, rfl⟩, hne⟩
    exact ⟨p, ⟨hp, hne⟩, rfl⟩

theorem length_dpop_lt {K V : Type} [DecidableEq K] (l : List (K × V))
    (k : K) (h : k ∈ dkeys l) : (dpop l k).length < l.length := by
  obtain ⟨p, hp, hfst⟩ := List.mem_map.mp h
  unfold dpop
  rw [List.length_filter_lt_length_iff_exists]
  exact ⟨p, hp, by simp [hfst]⟩

/-! ### Refresh lemmas -/

theorem dlookup_refresh_step {χ : Type} [DecidableEq χ] (ledger : Ledger χ)
    (c : χ) (st : SubType) (now : Nat) (k : χ × SubType) :
    dlookup
      (if (dlookup ledger (sub_key c st)).isSome then
        dinsert ledger (sub_key c st) now
      else ledger) k =
      if k = sub_key c st ∧ (dlookup ledger k).isSome then some now
      else dlookup ledger k := by
  by_cases hp : (dlookup ledger (sub_key c st)).isSome
  · rw [if_pos hp]
    by_cases hk : k = sub_key c st
    · subst hk
      rw [dlookup_dinsert_self, if_pos ⟨rfl, hp⟩]
    · rw [dlookup_dinsert_other _ _ _ _ hk, if_neg (fun h => hk h.1)]
  · rw [if_neg hp]
    by_cases hk : k = sub_key c st
    · subst hk
      rw [if_neg (fun h => hp h.2)]
    · rw [if_neg (fun h => hk h.1)]

theorem dlookup_refresh_step_isSome {χ : Type} [DecidableEq χ]
    (ledger : Ledger χ) (c : χ) (st : SubType) (now : Nat) (k : χ × SubType) :
    (dlookup
      (if (dlookup ledger (sub_key c st)).isSome then
        dinsert ledger (sub_key c st) now
      else ledger) k).isSome = (dlookup ledger k).isSome := by
  rw [dlookup_refresh_step]
  by_cases h : k = sub_key c st ∧ (dlookup ledger k).isSome
  · rw [if_pos h]
    simp [h.2]
  · rw [if_neg h]

theorem dlookup_refresh {χ : Type} [DecidableEq χ] (ledger : Ledger χ)
    (cs : List χ) (st : SubType) (now : Nat) (k : χ × SubType) :
    dlookup (refresh_subscriptions ledger cs st now) k =
      if k.2 = st ∧ k.1 ∈ cs ∧ (dlookup ledger k).isSome then some now
      else dlookup ledger k := by
  induction cs generalizing ledger with
  | nil => simp [refresh_subscriptions]
  | cons c rest ih =>
    show dlookup (refresh_subscriptions
      (if (dlookup ledger (sub_key c st)).isSome then
        dinsert ledger (sub_key c st) now
      else ledger) rest st now) k = _
    rw [ih, dlookup_refresh_step_isSome, dlookup_refresh_step]
    by_cases h1 : k.2 = st <;> by_cases h3 : (dlookup ledger k).isSome <;>
      by_cases h4 : k.1 = c <;> by_cases h2 : k.1 ∈ rest <;>
      simp_all [sub_key, Prod.ext_iff, List.mem_cons]

theorem dkeys_refresh {χ : Type} [DecidableEq χ] (ledger : Ledger χ)
    (cs : List χ) (st : SubType) (now : Nat) :
    dkeys (refresh_subscriptions ledger cs st now) = dkeys ledger := by
  induction cs generalizing ledger with
  | nil => rfl
  | cons c rest ih =>
    show dkeys (refresh_subscriptions
      (if (dlookup ledger (sub_key c st)).isSome then
        dinsert ledger (sub_key c st) now
      else ledger) rest st now) = _
    rw [ih]
    by_cases h : (dlookup ledger (sub_key c st)).isSome
    · rw [if_pos h, dkeys_dinsert_present _ _ _ h]
    · rw [if_neg h]

theorem length_refresh {χ : Type} [DecidableEq χ] (ledger : Ledger χ)
    (cs : List χ) (st : SubType) (now : Nat) :
    (refresh_subscriptions ledger cs st now).length = ledger.length := by
  rw [← length_dkeys, dkeys_refresh, length_dkeys]

/-! ### Key-removal lemmas -/

theorem pop_all_append {K V : Type} [DecidableEq K] (l : List (K × V))
    (ks ks' : List K) :
    pop_all l (ks ++ ks') = pop_all (pop_all l ks) ks' :=
  List.foldl_append _ _ _ _

theorem mem_dkeys_pop_all {K V : Type} [DecidableEq K] (l : List (K × V))
    (ks : List K) (k : K) :
    k ∈ dkeys (pop_all l ks) ↔ k ∈ dkeys l ∧ k ∉ ks := by
  induction ks generalizing l with
  | nil => simp [pop_all]
  | cons k0 rest ih =>
    show k ∈ dkeys (pop_all (dpop l k0) rest) ↔ _
    rw [ih, mem_dkeys_dpop]
    simp only [List.mem_cons]
    tauto

theorem pop_all_sublist {K V : Type} [DecidableEq K] (l : List (K × V))
    (ks : List K) : (pop_all l ks).Sublist l := by
  induction ks generalizing l with
  | nil => exact List.Sublist.refl l
  | cons k0 rest ih =>
    exact List.Sublist.trans (ih (dpop l k0)) (dpop_sublist l k0)

theorem length_pop_all {K V : Type} [DecidableEq K] (l : List (K × V))
    (ks : List K) (hnd : ks.Nodup) (hmem : ∀ k ∈ ks, k ∈ dkeys l) :
    (pop_all l ks).length + ks.length ≤ l.length := by
  induction ks generalizing l with
  | nil => simp [pop_all]
  | cons k0 rest ih =>
    show (pop_all (dpop l k0) rest).length + _ ≤ _
    have h0 : k0 ∈ dkeys l := hmem k0 (List.mem_cons_self _ _)
    have hlt := length_dpop_lt l k0 h0
    have hd := List.nodup_cons.mp hnd
    have hrest : ∀ k ∈ rest, k ∈ dkeys (dpop l k0) := by
      intro k hk
      rw [mem_dkeys_dpop]
      refine ⟨hmem k (List.mem_cons_of_mem _ hk), ?_⟩
      rintro rfl
      exact hd.1 hk
    have := ih (dpop l k0) hd.2 hrest
    simp only [List.length_cons]
    omega

/-! ### Victim-grouping lemmas -/

theorem group_keys_cons {χ : Type} (g : SubType × List χ)
    (rest : List (SubType × List χ)) :
    group_keys (g :: rest) =
      g.2.map (fun c => sub_key c g.1) ++ group_keys rest := by
  simp [group_keys]

theorem group_keys_add_to_group {χ : Type} (groups : List (SubType × List χ))
    (st : SubType) (c : χ) :
    (group_keys (add_to_group groups st c)).Perm
      (group_keys groups ++ [sub_key c st]) := by
  induction groups with
  | nil => simp [add_to_group, group_keys]
  | cons g rest ih =>
    obtain ⟨st', cs⟩ := g
    by_cases h : st' = st
    · subst h
      have hstep : add_to_group ((st', cs) :: rest) st' c =
          (st', cs ++ [c]) :: rest := by
        simp [add_to_group]
      rw [hstep, group_keys_cons, group_keys_cons]
      simp only [List.map_append, List.map_cons, List.map_nil,
        List.append_assoc]
      exact List.Perm.append_left _ List.perm_append_comm
    · have hstep : add_to_group ((st', cs) :: rest) st c =
          (st', cs) :: add_to_group rest st c := by
        simp [add_to_group, h]
      rw [hstep, group_keys_cons, group_keys_cons, List.append_assoc]
      exact List.Perm.append_left _ ih

theorem group_keys_foldl {χ : Type} (cands : Ledger χ)
    (acc : List (SubType × List χ)) :
    (group_keys (cands.foldl (fun a p => add_to_group a p.1.2 p.1.1) acc)).Perm
      (group_keys acc ++ dkeys cands) := by
  induction cands generalizing acc with
  | nil => simp [dkeys]
  | cons p rest ih =>
    show (group_keys (rest.foldl _ (add_to_group acc p.1.2 p.1.1))).Perm _
    refine (ih (add_to_group acc p.1.2 p.1.1)).trans ?_
    refine (List.Perm.append_right _
      (group_keys_add_to_group acc p.1.2 p.1.1)).trans ?_
    rw [List.append_assoc]
    simp [sub_key, dkeys]

theorem group_keys_group_by_type {χ : Type} (cands : Ledger χ) :
    (group_keys (group_by_type cands)).Perm (dkeys cands) := by
  have := group_keys_foldl cands []
  simpa [group_keys] using this

theorem add_to_group_ne_nil {χ : Type} (groups : List (SubType × List χ))
    (st : SubType) (c : χ) (h : ∀ g ∈ groups, g.2 ≠ []) :
    ∀ g ∈ add_to_group groups st c, g.2 ≠ [] := by
  induction groups with
  | nil =>
    intro g hg
    simp only [add_to_group, List.mem_singleton] at hg
    subst hg
    simp
  | cons a rest ih =>
    obtain ⟨st', cs⟩ := a
    intro g hg
    by_cases hs : st' = st
    · subst hs
      have hstep : add_to_group ((st', cs) :: rest) st' c =
          (st', cs ++ [c]) :: rest := by
        simp [add_to_group]
      rw [hstep] at hg
      rcases List.mem_cons.mp hg with hg | hg
      · subst hg; simp
      · exact h g (List.mem_cons_of_mem _ hg)
    · have hstep : add_to_group ((st', cs) :: rest) st c =
          (st', cs) :: add_to_group rest st c := by
        simp [add_to_group, hs]
      rw [hstep] at hg
      rcases List.mem_cons.mp hg with hg | hg
      · subst hg
        exact h _ (List.mem_cons_self _ _)
      · exact ih (fun g' hg' => h g' (List.mem_cons_of_mem _ hg')) g hg

theorem group_by_type_ne_nil {χ : Type} (cands : Ledger χ) :
    ∀ g ∈ group_by_type cands, g.2 ≠ [] := by
  have main : ∀ (cs : Ledger χ) (acc : List (SubType × List χ)),
      (∀ g ∈ acc, g.2 ≠ []) →
      ∀ g ∈ cs.foldl (fun a p => add_to_group a p.1.2 p.1.1) acc, g.2 ≠ [] := by
    intro cs
    induction cs with
    | nil => exact fun acc h => h
    | cons p rest ih =>
      intro acc hacc
      exact ih _ (add_to_group_ne_nil _ _ _ hacc)
  exact main cands [] (by simp)

/-! ### Victim-selection lemmas -/

theorem length_filter_not_partition {α : Type} (p : α → Prop) [DecidablePred p]
    (l : List α) :
    (l.filter (fun a => decide (p a))).length +
      (l.filter (fun a => decide (¬ p a))).length = l.length := by
  induction l with
  | nil => rfl
  | cons a rest ih =>
    by_cases h : p a <;> simp [List.filter_cons, h, decide_not] at ih ⊢ <;>
      omega

theorem select_victims_eq {χ : Type} [DecidableEq χ] (ledger : Ledger χ)
    (st : SubType) (n : Nat) :
    select_victims ledger st n =
      (List.insertionSort (fun a b => a.2 ≤ b.2)
        (ledger.filter (fun p => p.1.2 = st))).take n ++
      (List.insertionSort (fun a b => a.2 ≤ b.2)
        (ledger.filter (fun p => ¬ p.1.2 = st))).take
        (n - ((List.insertionSort (fun a b => a.2 ≤ b.2)
          (ledger.filter (fun p => p.1.2 = st))).take n).length) := by
  unfold select_victims
  dsimp only
  split_ifs with h
  · rfl
  · push_neg at h
    have h0 : n - ((List.insertionSort (fun a b => a.2 ≤ b.2)
        (ledger.filter (fun p => p.1.2 = st))).take n).length = 0 := by omega
    rw [h0]
    simp

theorem select_victims_length {χ : Type} [DecidableEq χ] (ledger : Ledger χ)
    (st : SubType) (n : Nat) :
    (select_victims ledger st n).length = min n ledger.length := by
  rw [select_victims_eq]
  have hpart := length_filter_not_partition (fun p => p.1.2 = st) ledger
  have h1 : (List.insertionSort (fun a b => a.2 ≤ b.2)
      (ledger.filter (fun p => p.1.2 = st))).length =
      (ledger.filter (fun p => p.1.2 = st)).length :=
    (List.perm_insertionSort _ _).length_eq
  have h2 : (List.insertionSort (fun a b => a.2 ≤ b.2)
      (ledger.filter (fun p => ¬ p.1.2 = st))).length =
      (ledger.filter (fun p => ¬ p.1.2 = st)).length :=
    (List.perm_insertionSort _ _).length_eq
  simp only [List.length_append, List.length_take, h1, h2]
  omega

theorem select_victims_subset {χ : Type} [DecidableEq χ] (ledger : Ledger χ)
    (st : SubType) (n : Nat) :
    ∀ q ∈ select_victims ledger st n, q ∈ ledger := by
  rw [select_victims_eq]
  intro q hq
  rcases List.mem_append.mp hq with hq | hq
  · have := (List.take_sublist _ _).subset hq
    have := (List.perm_insertionSort _ _).mem_iff.mp this
    exact (List.mem_filter.mp this).1
  · have := (List.take_sublist _ _).subset hq
    have := (List.perm_insertionSort _ _).mem_iff.mp this
    exact (List.mem_filter.mp this).1

theorem nodup_dkeys_select_victims {χ : Type} [DecidableEq χ]
    (ledger : Ledger χ) (st : SubType) (n : Nat)
    (hnd : (dkeys ledger).Nodup) :
    (dkeys (select_victims ledger st n)).Nodup := by
  rw [select_victims_eq, dkeys_append]
  have hs1 : (dkeys (ledger.filter (fun p => p.1.2 = st))).Nodup :=
    ((List.filter_sublist ledger).map Prod.fst).nodup hnd
  have hs2 : (dkeys (ledger.filter (fun p => ¬ p.1.2 = st))).Nodup :=
    ((List.filter_sublist ledger).map Prod.fst).nodup hnd
  have hm1 : (dkeys (List.insertionSort (fun a b => a.2 ≤ b.2)
      (ledger.filter (fun p => p.1.2 = st)))).Nodup :=
    (((List.perm_insertionSort _ _).map Prod.fst).symm).nodup hs1
  have hm2 : (dkeys (List.insertionSort (fun a b => a.2 ≤ b.2)
      (ledger.filter (fun p => ¬ p.1.2 = st)))).Nodup :=
    (((List.perm_insertionSort _ _).map Prod.fst).symm).nodup hs2
  rw [List.nodup_append]
  refine ⟨((List.take_sublist _ _).map Prod.fst).nodup hm1,
    ((List.take_sublist _ _).map Prod.fst).nodup hm2, ?_⟩
  intro a ha hb
  have hmem1 : a.2 = st := by
    obtain ⟨q, hq, rfl⟩ := List.mem_map.mp ha
    have := (List.take_sublist _ _).subset hq
    have := (List.perm_insertionSort _ _).mem_iff.mp this
    have := (List.mem_filter.mp this).2
    exact of_decide_eq_true this
  have hmem2 : ¬ a.2 = st := by
    obtain ⟨q, hq, rfl⟩ := List.mem_map.mp hb
    have := (List.take_sublist _ _).subset hq
    have := (List.perm_insertionSort _ _).mem_iff.mp this
    have := (List.mem_filter.mp this).2
    exact of_decide_eq_true this
  exact hmem2 hmem1

/-! ### Eviction lemmas -/

theorem evict_step_empty {χ : Type} [DecidableEq χ] (gw : Gateway χ)
    (acc : Ledger χ × List (GwCall χ)) (g : SubType × List χ)
    (he : g.2.isEmpty) : evict_step gw acc g = acc := by
  unfold evict_step
  rw [if_pos he]

theorem evict_step_ok {χ : Type} [DecidableEq χ] (gw : Gateway χ)
    (acc : Ledger χ × List (GwCall χ)) (g : SubType × List χ)
    (he : ¬ g.2.isEmpty) (hok : gw.unsubOk g.2 g.1 = true) :
    evict_step gw acc g =
      (pop_all acc.1 (g.2.map (fun c => sub_key c g.1)),
       acc.2 ++ [GwCall.unsubscribe g.2 g.1]) := by
  unfold evict_step
  rw [if_neg he, if_pos hok]
  unfold pop_all
  rw [List.foldl_map]

theorem evict_step_fail {χ : Type} [DecidableEq χ] (gw : Gateway χ)
    (acc : Ledger χ × List (GwCall χ)) (g : SubType × List χ)
    (he : ¬ g.2.isEmpty) (hok : ¬ gw.unsubOk g.2 g.1 = true) :
    evict_step gw acc g = (acc.1, acc.2 ++ [GwCall.unsubscribe g.2 g.1]) := by
  unfold evict_step
  rw [if_neg he, if_neg hok]

theorem evict_fold_fst_sublist {χ : Type} [DecidableEq χ] (gw : Gateway χ)
    (groups : List (SubType × List χ)) (l : Ledger χ) (cs : List (GwCall χ)) :
    ((groups.foldl (evict_step gw) (l, cs)).1).Sublist l := by
  induction groups generalizing l cs with
  | nil => exact List.Sublist.refl _
  | cons g rest ih =>
    show ((rest.foldl (evict_step gw) (evict_step gw (l, cs) g)).1).Sublist l
    by_cases he : g.2.isEmpty
    · rw [evict_step_empty gw _ g he]
      exact ih l cs
    · by_cases hok : gw.unsubOk g.2 g.1
      · rw [evict_step_ok gw _ g he hok]
        exact List.Sublist.trans (ih _ _) (pop_all_sublist _ _)
      · rw [evict_step_fail gw _ g he hok]
        exact ih l _

theorem evict_fold_calls {χ : Type} [DecidableEq χ] (gw : Gateway χ)
    (groups : List (SubType × List χ)) (l : Ledger χ) (cs : List (GwCall χ)) :
    (groups.foldl (evict_step gw) (l, cs)).2 =
      cs ++ (groups.filter (fun g => !g.2.isEmpty)).map
        (fun g => GwCall.unsubscribe g.2 g.1) := by
  induction groups generalizing l cs with
  | nil => simp
  | cons g rest ih =>
    show (rest.foldl (evict_step gw) (evict_step gw (l, cs) g)).2 = _
    by_cases he : g.2.isEmpty
    · rw [evict_step_empty gw _ g he, ih]
      simp [List.filter_cons, he]
    · by_cases hok : gw.unsubOk g.2 g.1
      · rw [evict_step_ok gw _ g he hok, ih]
        simp [List.filter_cons, he]
      · rw [evict_step_fail gw _ g he hok, ih]
        simp [List.filter_cons, he]

theorem evict_fold_keys {χ : Type} [DecidableEq χ] (gw : Gateway χ)
    (groups : List (SubType × List χ)) (l : Ledger χ) (cs : List (GwCall χ))
    (k : χ × SubType) :
    k ∈ dkeys ((groups.foldl (evict_step gw) (l, cs)).1) ↔
      k ∈ dkeys l ∧ ∀ g ∈ groups, gw.unsubOk g.2 g.1 = true →
        k ∉ g.2.map (fun c => sub_key c g.1) := by
  induction groups generalizing l cs with
  | nil => simp
  | cons g rest ih =>
    show k ∈ dkeys ((rest.foldl (evict_step gw)
      (evict_step gw (l, cs) g)).1) ↔ _
    by_cases he : g.2.isEmpty
    · rw [evict_step_empty gw _ g he, ih]
      have hge : g.2 = [] := List.isEmpty_iff.mp he
      simp [hge]
    · by_cases hok : gw.unsubOk g.2 g.1
      · rw [evict_step_ok gw _ g he hok, ih, mem_dkeys_pop_all]
        simp only [List.forall_mem_cons, hok, true_implies]
        tauto
      · rw [evict_step_fail gw _ g he hok, ih]
        simp only [List.forall_mem_cons, hok, false_implies, Bool.false_eq_true,
          true_and]

theorem evict_fold_all_ok {χ : Type} [DecidableEq χ] (gw : Gateway χ)
    (groups : List (SubType × List χ)) (l : Ledger χ) (cs : List (GwCall χ))
    (hok : ∀ g ∈ groups, gw.unsubOk g.2 g.1 = true) :
    (groups.foldl (evict_step gw) (l, cs)).1 =
      pop_all l (group_keys groups) := by
  induction groups generalizing l cs with
  | nil => rfl
  | cons g rest ih =>
    show (rest.foldl (evict_step gw) (evict_step gw (l, cs) g)).1 = _
    rw [group_keys_cons, pop_all_append]
    by_cases he : g.2.isEmpty
    · rw [evict_step_empty gw _ g he,
        ih _ _ (fun g' hg' => hok g' (List.mem_cons_of_mem _ hg'))]
      have hge : g.2 = [] := List.isEmpty_iff.mp he
      simp [hge, pop_all]
    · rw [evict_step_ok gw _ g he (hok g (List.mem_cons_self _ _)),
        ih _ _ (fun g' hg' => hok g' (List.mem_cons_of_mem _ hg'))]

theorem evict_eq_noop_small {χ : Type} [DecidableEq χ] (gw : Gateway χ)
    (limit : Nat) (ledger : Ledger χ) (st : SubType) (n : Nat)
    (h : n - (limit - ledger.length) = 0) :
    evict_old_subscriptions_if_needed gw limit ledger st n = (ledger, []) := by
  unfold evict_old_subscriptions_if_needed
  dsimp only
  by_cases h0 : n = 0
  · rw [if_pos h0]
  · rw [if_neg h0, if_pos h]

theorem evict_eq_of_pos {χ : Type} [DecidableEq χ] (gw : Gateway χ)
    (limit : Nat) (ledger : Ledger χ) (st : SubType) (n : Nat)
    (h0 : n ≠ 0) (h1 : n - (limit - ledger.length) ≠ 0) :
    evict_old_subscriptions_if_needed gw limit ledger st n =
      (group_by_type
        (select_victims ledger st (n - (limit - ledger.length)))).foldl
        (evict_step gw) (ledger, []) := by
  unfold evict_old_subscriptions_if_needed
  dsimp only
  rw [if_neg h0, if_neg h1]

theorem evict_fst_sublist {χ : Type} [DecidableEq χ] (gw : Gateway χ)
    (limit : Nat) (ledger : Ledger χ) (st : SubType) (n : Nat) :
    ((evict_old_subscriptions_if_needed gw limit ledger st n).1).Sublist
      ledger := by
  by_cases h1 : n - (limit - ledger.length) = 0
  · rw [evict_eq_noop_small gw limit ledger st n h1]
  · have h0 : n ≠ 0 := by
      intro h
      subst h
      simp at h1
    rw [evict_eq_of_pos gw limit ledger st n h0 h1]
    exact evict_fold_fst_sublist _ _ _ _

theorem evict_length_bound {χ : Type} [DecidableEq χ] (gw : Gateway χ)
    (limit : Nat) (ledger : Ledger χ) (st : SubType) (n : Nat)
    (hnd : (dkeys ledger).Nodup) (hok : ∀ cs t, gw.unsubOk cs t = true) :
    (evict_old_subscriptions_if_needed gw limit ledger st n).1.length +
      min (n - (limit - ledger.length)) ledger.length ≤ ledger.length := by
  by_cases h1 : n - (limit - ledger.length) = 0
  · rw [evict_eq_noop_small gw limit ledger st n h1, h1]
    simp
  · have h0 : n ≠ 0 := by
      intro h
      subst h
      simp at h1
    rw [evict_eq_of_pos gw limit ledger st n h0 h1]
    set nr := n - (limit - ledger.length) with hnr
    set victims := select_victims ledger st nr with hv
    rw [evict_fold_all_ok gw _ _ _ (fun g _ => hok g.2 g.1)]
    have hperm := group_keys_group_by_type victims
    have hlen : (group_keys (group_by_type victims)).length =
        min nr ledger.length := by
      rw [hperm.length_eq, length_dkeys, hv, select_victims_length]
    have hgnd : (group_keys (group_by_type victims)).Nodup :=
      hperm.symm.nodup (nodup_dkeys_select_victims ledger st nr hnd)
    have hgmem : ∀ k ∈ group_keys (group_by_type victims), k ∈ dkeys ledger := by
      intro k hk
      have := hperm.mem_iff.mp hk
      obtain ⟨q, hq, rfl⟩ := List.mem_map.mp this
      exact List.mem_map.mpr ⟨q, select_victims_subset ledger st nr q hq, rfl⟩
    have := length_pop_all ledger (group_keys (group_by_type victims)) hgnd hgmem
    omega

/-! ### Subscription lemmas -/

theorem subscribe_if_needed_nil {χ : Type} [DecidableEq χ] (gw : Gateway χ)
    (limit : Nat) (ledger : Ledger χ) (codeList : List χ) (st : SubType)
    (now : Nat) (h : codeList.isEmpty) :
    subscribe_if_needed gw limit ledger codeList st now =
      (RET_OK, ledger, []) := by
  unfold subscribe_if_needed
  rw [if_pos h]

theorem subscribe_if_needed_all_present {χ : Type} [DecidableEq χ]
    (gw : Gateway χ) (limit : Nat) (ledger : Ledger χ) (codeList : List χ)
    (st : SubType) (now : Nat) (h : ¬ codeList.isEmpty)
    (h2 : (need_subscribe_list ledger codeList st).isEmpty) :
    subscribe_if_needed gw limit ledger codeList st now =
      (RET_OK, refresh_subscriptions ledger codeList st now, []) := by
  unfold subscribe_if_needed
  rw [if_neg h]
  dsimp only
  rw [if_pos h2]

theorem subscribe_if_needed_sub_ok {χ : Type} [DecidableEq χ] (gw : Gateway χ)
    (limit : Nat) (ledger : Ledger χ) (codeList : List χ) (st : SubType)
    (now : Nat) (h : ¬ codeList.isEmpty)
    (h2 : ¬ (need_subscribe_list ledger codeList st).isEmpty)
    (h3 : gw.subscribeRet (need_subscribe_list ledger codeList st) st =
      RET_OK) :
    subscribe_if_needed gw limit ledger codeList st now =
      (RET_OK,
       (need_subscribe_list ledger codeList st).foldl
         (fun l c => dinsert l (sub_key c st) now)
         (evict_old_subscriptions_if_needed gw limit
           (refresh_subscriptions ledger codeList st now) st
           (need_subscribe_list ledger codeList st).length).1,
       (evict_old_subscriptions_if_needed gw limit
         (refresh_subscriptions ledger codeList st now) st
         (need_subscribe_list ledger codeList st).length).2 ++
         [GwCall.subscribe (need_subscribe_list ledger codeList st) st]) := by
  unfold subscribe_if_needed
  rw [if_neg h]
  dsimp only
  rw [if_neg h2, if_pos h3, h3]

theorem subscribe_if_needed_sub_fail {χ : Type} [DecidableEq χ]
    (gw : Gateway χ) (limit : Nat) (ledger : Ledger χ) (codeList : List χ)
    (st : SubType) (now : Nat) (h : ¬ codeList.isEmpty)
    (h2 : ¬ (need_subscribe_list ledger codeList st).isEmpty)
    (h3 : ¬ gw.subscribeRet (need_subscribe_list ledger codeList st) st =
      RET_OK) :
    subscribe_if_needed gw limit ledger codeList st now =
      (gw.subscribeRet (need_subscribe_list ledger codeList st) st,
       (evict_old_subscriptions_if_needed gw limit
         (refresh_subscriptions ledger codeList st now) st
         (need_subscribe_list ledger codeList st).length).1,
       (evict_old_subscriptions_if_needed gw limit
         (refresh_subscriptions ledger codeList st now) st
         (need_subscribe_list ledger codeList st).length).2 ++
         [GwCall.subscribe (need_subscribe_list ledger codeList st) st]) := by
  unfold subscribe_if_needed
  rw [if_neg h]
  dsimp only
  rw [if_neg h2, if_neg h3]

theorem foldl_dinsert_length {χ : Type} [DecidableEq χ] (l : Ledger χ)
    (cs : List χ) (st : SubType) (now : Nat) :
    (cs.foldl (fun l c => dinsert l (sub_key c st) now) l).length ≤
      l.length + cs.length := by
  induction cs generalizing l with
  | nil => simp
  | cons c rest ih =>
    show (rest.foldl _ (dinsert l (sub_key c st) now)).length ≤ _
    have h1 := ih (dinsert l (sub_key c st) now)
    have h2 := length_dinsert_le l (sub_key c st) now
    simp only [List.length_cons]
    omega

theorem foldl_dinsert_nodup {χ : Type} [DecidableEq χ] (l : Ledger χ)
    (cs : List χ) (st : SubType) (now : Nat) (hnd : (dkeys l).Nodup) :
    (dkeys (cs.foldl (fun l c => dinsert l (sub_key c st) now) l)).Nodup := by
  induction cs generalizing l with
  | nil => exact hnd
  | cons c rest ih =>
    exact ih _ (nodup_dkeys_dinsert l (sub_key c st) now hnd)

theorem length_need_subscribe_le {χ : Type} [DecidableEq χ] (ledger : Ledger χ)
    (codeList : List χ) (st : SubType) :
    (need_subscribe_list ledger codeList st).length ≤ codeList.length :=
  List.length_filter_le _ _

theorem subscribe_if_needed_ledger_length {χ : Type} [DecidableEq χ]
    (gw : Gateway χ) (limit : Nat) (ledger : Ledger χ) (codeList : List χ)
    (st : SubType) (now : Nat) (hnd : (dkeys ledger).Nodup)
    (hlen : ledger.length ≤ limit)
    (hok : ∀ cs t, gw.unsubOk cs t = true)
    (hcl : codeList.length ≤ limit) :
    (subscribe_if_needed gw limit ledger codeList st now).2.1.length ≤
      limit := by
  by_cases h : codeList.isEmpty
  · rw [subscribe_if_needed_nil gw limit ledger codeList st now h]
    exact hlen
  by_cases h2 : (need_subscribe_list ledger codeList st).isEmpty
  · rw [subscribe_if_needed_all_present gw limit ledger codeList st now h h2]
    dsimp only
    rw [length_refresh]
    exact hlen
  have hRnd : (dkeys (refresh_subscriptions ledger codeList st now)).Nodup := by
    rw [dkeys_refresh]
    exact hnd
  have hRlen : (refresh_subscriptions ledger codeList st now).length =
      ledger.length := length_refresh ledger codeList st now
  have hns : (need_subscribe_list ledger codeList st).length ≤ limit :=
    le_trans (length_need_subscribe_le ledger codeList st) hcl
  have hbound := evict_length_bound gw limit
    (refresh_subscriptions ledger codeList st now) st
    (need_subscribe_list ledger codeList st).length hRnd hok
  by_cases h3 : gw.subscribeRet (need_subscribe_list ledger codeList st) st =
      RET_OK
  · rw [subscribe_if_needed_sub_ok gw limit ledger codeList st now h h2 h3]
    dsimp only
    have hins := foldl_dinsert_length
      (evict_old_subscriptions_if_needed gw limit
        (refresh_subscriptions ledger codeList st now) st
        (need_subscribe_list ledger codeList st).length).1
      (need_subscribe_list ledger codeList st) st now
    rw [hRlen] at hbound
    omega
  · rw [subscribe_if_needed_sub_fail gw limit ledger codeList st now h h2 h3]
    dsimp only
    rw [hRlen] at hbound
    omega

theorem subscribe_if_needed_ledger_nodup {χ : Type} [DecidableEq χ]
    (gw : Gateway χ) (limit : Nat) (ledger : Ledger χ) (codeList : List χ)
    (st : SubType) (now : Nat) (hnd : (dkeys ledger).Nodup) :
    (dkeys (subscribe_if_needed gw limit ledger codeList st now).2.1).Nodup := by
  by_cases h : codeList.isEmpty
  · rw [subscribe_if_needed_nil gw limit ledger codeList st now h]
    exact hnd
  have hRnd : (dkeys (refresh_subscriptions ledger codeList st now)).Nodup := by
    rw [dkeys_refresh]
    exact hnd
  by_cases h2 : (need_subscribe_list ledger codeList st).isEmpty
  · rw [subscribe_if_needed_all_present gw limit ledger codeList st now h h2]
    exact hRnd
  have hEnd : (dkeys (evict_old_subscriptions_if_needed gw limit
      (refresh_subscriptions ledger codeList st now) st
      (need_subscribe_list ledger codeList st).length).1).Nodup :=
    ((evict_fst_sublist gw limit _ st _).map Prod.fst).nodup hRnd
  by_cases h3 : gw.subscribeRet (need_subscribe_list ledger codeList st) st =
      RET_OK
  · rw [subscribe_if_needed_sub_ok gw limit ledger codeList st now h h2 h3]
    exact foldl_dinsert_nodup _ _ st now hEnd
  · rw [subscribe_if_needed_sub_fail gw limit ledger codeList st now h h2 h3]
    exact hEnd

theorem run_calls_invariant {χ : Type} [DecidableEq χ] (limit : Nat)
    (calls : List (CallSpec χ))
    (hok : ∀ c ∈ calls, (∀ cs t, c.gw.unsubOk cs t = true) ∧
      c.codes.length ≤ limit) :
    (run_calls limit calls).length ≤ limit ∧
      (dkeys (run_calls limit calls)).Nodup := by
  have main : ∀ (cs : List (CallSpec χ)) (l : Ledger χ),
      (∀ c ∈ cs, (∀ xs t, c.gw.unsubOk xs t = true) ∧
        c.codes.length ≤ limit) →
      l.length ≤ limit → (dkeys l).Nodup →
      (cs.foldl (fun l c =>
        (subscribe_if_needed c.gw limit l c.codes c.st c.now).2.1) l).length ≤
          limit ∧
        (dkeys (cs.foldl (fun l c =>
          (subscribe_if_needed c.gw limit l c.codes c.st c.now).2.1) l)).Nodup := by
    intro cs
    induction cs with
    | nil => exact fun l _ hl hn => ⟨hl, hn⟩
    | cons c rest ih =>
      intro l hcs hl hn
      have hc := hcs c (List.mem_cons_self _ _)
      refine ih _ (fun c' hc' => hcs c' (List.mem_cons_of_mem _ hc')) ?_ ?_
      · exact subscribe_if_needed_ledger_length c.gw limit l c.codes c.st c.now
          hn hl hc.1 hc.2
      · exact subscribe_if_needed_ledger_nodup c.gw limit l c.codes c.st c.now
          hn
  exact main calls [] hok (by simp) (by simp [dkeys])

/-! ### Chunking lemmas -/

theorem chunk_list_fuel_flatten {χ : Type} (n fuel : Nat) (l : List χ)
    (h : l.length ≤ fuel) : (chunk_list_fuel n fuel l).flatten = l := by
  induction fuel generalizing l with
  | zero =>
    cases l with
    | nil => rfl
    | cons x xs => simp at h
  | succ f ih =>
    cases l with
    | nil => rfl
    | cons x xs =>
      rw [chunk_list_fuel, List.flatten_cons, List.take_succ_cons]
      rw [ih (xs.drop n) (by simp only [List.length_drop]; simp at h; omega)]
      show x :: (xs.take n ++ xs.drop n) = x :: xs
      rw [List.take_append_drop]

theorem chunk_list_flatten {χ : Type} (n : Nat) (l : List χ) :
    (chunk_list (n + 1) l).flatten = l :=
  chunk_list_fuel_flatten n l.length l (Nat.le_refl _)

theorem chunk_list_fuel_mem {χ : Type} (n fuel : Nat) (l : List χ) :
    ∀ c ∈ chunk_list_fuel n fuel l, c ≠ [] ∧ c.length ≤ n + 1 := by
  induction fuel generalizing l with
  | zero =>
    cases l with
    | nil => intro c hc; simp [chunk_list_fuel] at hc
    | cons x xs => intro c hc; simp [chunk_list_fuel] at hc
  | succ f ih =>
    intro c hc
    cases l with
    | nil => simp [chunk_list_fuel] at hc
    | cons x xs =>
      rw [chunk_list_fuel] at hc
      rcases List.mem_cons.mp hc with hc | hc
      · subst hc
        constructor
        · rw [List.take_succ_cons]
          exact List.cons_ne_nil _ _
        · rw [List.length_take]
          omega
      · exact ih (xs.drop n) c hc

theorem chunk_list_mem {χ : Type} (n : Nat) (l : List χ) :
    ∀ c ∈ chunk_list (n + 1) l, c ≠ [] ∧ c.length ≤ n + 1 :=
  chunk_list_fuel_mem n l.length l

/-! ### Snapshot loop lemmas -/

theorem snapshot_loop_raise {χ ρ : Type} (gwq : Nat → SnapResp ρ)
    (c : List χ) (cs : List (List χ)) (i : Nat)
    (hg : gwq i = SnapResp.raise) :
    snapshot_chunk_loop gwq (c :: cs) i =
      (Except.error SnapErr.transport, [c]) := by
  unfold snapshot_chunk_loop
  rw [hg]

theorem snapshot_loop_ret_ok {χ ρ : Type} (gwq : Nat → SnapResp ρ)
    (c : List χ) (cs : List (List χ)) (i : Nat) (d : List ρ)
    (hg : gwq i = SnapResp.ret RET_OK d) :
    snapshot_chunk_loop gwq (c :: cs) i =
      ((snapshot_chunk_loop gwq cs (i + 1)).1.map
        (fun ds => if d.isEmpty then ds else d :: ds),
       c :: (snapshot_chunk_loop gwq cs (i + 1)).2) := by
  conv_lhs => rw [snapshot_chunk_loop]
  rw [hg]
  dsimp only
  rw [if_pos rfl]

theorem snapshot_loop_ret_err {χ ρ : Type} (gwq : Nat → SnapResp ρ)
    (c : List χ) (cs : List (List χ)) (i : Nat) (rc : Int) (d : List ρ)
    (hg : gwq i = SnapResp.ret rc d) (hrc : ¬ rc = RET_OK) :
    snapshot_chunk_loop gwq (c :: cs) i =
      (Except.error SnapErr.logical, [c]) := by
  unfold snapshot_chunk_loop
  rw [hg]
  dsimp only
  rw [if_neg hrc]

theorem snapshot_loop_trace_subset {χ ρ : Type} (gwq : Nat → SnapResp ρ)
    (chunks : List (List χ)) (i : Nat) :
    ∀ q ∈ (snapshot_chunk_loop gwq chunks i).2, q ∈ chunks := by
  induction chunks generalizing i with
  | nil =>
    intro q hq
    simp [snapshot_chunk_loop] at hq
  | cons c cs ih =>
    intro q hq
    cases hg : gwq i with
    | raise =>
      rw [snapshot_loop_raise gwq c cs i hg] at hq
      simp at hq
      simp [hq]
    | ret rc d =>
      by_cases hr : rc = RET_OK
      · subst hr
        rw [snapshot_loop_ret_ok gwq c cs i d hg] at hq
        dsimp only at hq
        rcases List.mem_cons.mp hq with hq | hq
        · simp [hq]
        · exact List.mem_cons_of_mem _ (ih (i + 1) q hq)
      · rw [snapshot_loop_ret_err gwq c cs i rc d hg hr] at hq
        simp at hq
        simp [hq]

theorem snapshot_loop_all_ok {χ ρ : Type} (gwq : Nat → SnapResp ρ)
    (data : Nat → List ρ) (chunks : List (List χ)) (i : Nat)
    (hall : ∀ j, j < chunks.length →
      gwq (i + j) = SnapResp.ret RET_OK (data (i + j))) :
    (snapshot_chunk_loop gwq chunks i).2 = chunks ∧
    ∃ dss, (snapshot_chunk_loop gwq chunks i).1 = Except.ok dss ∧
      dss.flatten =
        ((List.range chunks.length).map (fun j => data (i + j))).flatten := by
  induction chunks generalizing i with
  | nil => exact ⟨rfl, [], rfl, rfl⟩
  | cons c cs ih =>
    have h0 : gwq i = SnapResp.ret RET_OK (data i) := by
      have := hall 0 (by simp)
      simpa using this
    have hrest := ih (i + 1) (fun j hj => by
      have := hall (j + 1) (by simpa using Nat.succ_lt_succ hj)
      have harith : i + (j + 1) = i + 1 + j := by omega
      rw [harith] at this
      exact this)
    obtain ⟨htr, dss, hds, hfl⟩ := hrest
    have hrange : ((List.range (cs.length + 1)).map
        (fun j => data (i + j))).flatten =
        data i ++ ((List.range cs.length).map
          (fun j => data (i + 1 + j))).flatten := by
      rw [List.range_succ_eq_map, List.map_cons, List.map_map]
      have h2 : ((fun j => data (i + j)) ∘ Nat.succ) =
          fun j => data (i + 1 + j) := by
        funext j
        show data (i + Nat.succ j) = data (i + 1 + j)
        have h3 : i + Nat.succ j = i + 1 + j := by omega
        rw [h3]
      rw [h2, List.flatten_cons]
      simp
    rw [snapshot_loop_ret_ok gwq c cs i (data i) h0]
    dsimp only
    refine ⟨by rw [htr], ?_⟩
    rw [hds]
    by_cases hd : (data i).isEmpty
    · refine ⟨dss, by simp [hd, Except.map], ?_⟩
      have hde : data i = [] := List.isEmpty_iff.mp hd
      simp only [List.length_cons, hrange, hfl, hde]
      simp
    · refine ⟨data i :: dss, by simp [hd, Except.map], ?_⟩
      simp only [List.length_cons, hrange, List.flatten_cons, hfl]

theorem snapshot_loop_fail {χ ρ : Type} (gwq : Nat → SnapResp ρ)
    (chunks : List (List χ)) (i j : Nat) (hj : j < chunks.length)
    (hok : ∀ j', j' < j → ∃ d, gwq (i + j') = SnapResp.ret RET_OK d)
    (hfail : ∀ rc d, gwq (i + j) = SnapResp.ret rc d → rc ≠ RET_OK) :
    ∃ e, (snapshot_chunk_loop gwq chunks i).1 = Except.error e ∧
      (snapshot_chunk_loop gwq chunks i).2 = chunks.take (j + 1) ∧
      (gwq (i + j) = SnapResp.raise → e = SnapErr.transport) := by
  induction chunks generalizing i j with
  | nil => simp at hj
  | cons c cs ih =>
    cases j with
    | zero =>
      cases hg : gwq i with
      | raise =>
        rw [snapshot_loop_raise gwq c cs i hg]
        exact ⟨SnapErr.transport, rfl, rfl, fun _ => rfl⟩
      | ret rc d =>
        have hrc : ¬ rc = RET_OK := hfail rc d (by simpa using hg)
        rw [snapshot_loop_ret_err gwq c cs i rc d hg hrc]
        refine ⟨SnapErr.logical, rfl, rfl, fun hr => ?_⟩
        rw [show i + 0 = i from rfl, hg] at hr
        exact SnapResp.noConfusion hr
    | succ j' =>
      obtain ⟨d0, hd0⟩ := hok 0 (Nat.succ_pos j')
      have hd0' : gwq i = SnapResp.ret RET_OK d0 := by simpa using hd0
      have hok' : ∀ j'', j'' < j' → ∃ d, gwq (i + 1 + j'') =
          SnapResp.ret RET_OK d := by
        intro j'' hj''
        obtain ⟨d, hd⟩ := hok (j'' + 1) (Nat.succ_lt_succ hj'')
        have harith : i + (j'' + 1) = i + 1 + j'' := by omega
        rw [harith] at hd
        exact ⟨d, hd⟩
      have hfail' : ∀ rc d, gwq (i + 1 + j') = SnapResp.ret rc d →
          rc ≠ RET_OK := by
        intro rc d hd
        have harith : i + 1 + j' = i + (j' + 1) := by omega
        rw [harith] at hd
        exact hfail rc d hd
      obtain ⟨e, he1, he2, he3⟩ := ih (i + 1) j'
        (by simpa using Nat.lt_of_succ_lt_succ hj) hok' hfail'
      rw [snapshot_loop_ret_ok gwq c cs i d0 hd0']
      dsimp only
      rw [he1, he2]
      refine ⟨e, rfl, rfl, fun hr => ?_⟩
      refine he3 ?_
      have harith : i + 1 + j' = i + (j' + 1) := by omega
      rw [harith]
      exact hr

/-! ### Group feed-type distinctness -/

theorem add_to_group_fst {χ : Type} (groups : List (SubType × List χ))
    (st : SubType) (c : χ) :
    (add_to_group groups st c).map Prod.fst =
      if st ∈ groups.map Prod.fst then groups.map Prod.fst
      else groups.map Prod.fst ++ [st] := by
  induction groups with
  | nil => simp [add_to_group]
  | cons g rest ih =>
    obtain ⟨st', cs⟩ := g
    by_cases h : st' = st
    · subst h
      have hstep : add_to_group ((st', cs) :: rest) st' c =
          (st', cs ++ [c]) :: rest := by
        simp [add_to_group]
      rw [hstep]
      simp
    · have hstep : add_to_group ((st', cs) :: rest) st c =
          (st', cs) :: add_to_group rest st c := by
        simp [add_to_group, h]
      rw [hstep]
      have hne : ¬ st = st' := fun he => h he.symm
      simp only [List.map_cons, List.mem_cons, ih]
      by_cases hm : st ∈ rest.map Prod.fst <;> simp [hm, hne]

theorem group_by_type_fst_nodup {χ : Type} (cands : Ledger χ) :
    ((group_by_type cands).map Prod.fst).Nodup := by
  have main : ∀ (cs : Ledger χ) (acc : List (SubType × List χ)),
      (acc.map Prod.fst).Nodup →
      ((cs.foldl (fun a p => add_to_group a p.1.2 p.1.1) acc).map
        Prod.fst).Nodup := by
    intro cs
    induction cs with
    | nil => exact fun acc h => h
    | cons p rest ih =>
      intro acc hacc
      refine ih _ ?_
      rw [add_to_group_fst]
      by_cases hm : p.1.2 ∈ acc.map Prod.fst
      · rw [if_pos hm]
        exact hacc
      · rw [if_neg hm]
        simp [List.nodup_append, hacc, hm]
  exact main cands [] (by simp)

/-! ### Connection and empty-ledger lemmas -/

theorem get_quote_context_recycle {χ : Type} (gs : GlobalState χ)
    (now : Nat) (maxAgeSec : Int) (t0 : Nat) (ht : gs.connCreatedAt = some t0)
    (hm : 0 < maxAgeSec) (ha : maxAgeSec ≤ (now : Int) - (t0 : Int)) :
    get_quote_context gs now maxAgeSec =
      { connCreatedAt := some now, ledger := [] } := by
  unfold get_quote_context
  rw [ht]
  dsimp only
  rw [if_pos ⟨hm, ha⟩]

theorem select_victims_nil {χ : Type} [DecidableEq χ] (st : SubType)
    (n : Nat) : select_victims ([] : Ledger χ) st n = [] := by
  unfold select_victims
  simp

theorem evict_empty_ledger {χ : Type} [DecidableEq χ] (gw : Gateway χ)
    (limit : Nat) (st : SubType) (n : Nat) :
    evict_old_subscriptions_if_needed gw limit ([] : Ledger χ) st n =
      ([], []) := by
  by_cases h1 : n - (limit - (List.length ([] : Ledger χ))) = 0
  · exact evict_eq_noop_small gw limit [] st n h1
  · have h0 : n ≠ 0 := by
      intro h
      subst h
      simp at h1
    rw [evict_eq_of_pos gw limit [] st n h0 h1]
    rw [select_victims_nil]
    rfl

theorem subscribe_trace_empty_ledger {χ : Type} [DecidableEq χ]
    (gw : Gateway χ) (limit : Nat) (c : χ) (st : SubType) (now : Nat) :
    (subscribe_if_needed gw limit ([] : Ledger χ) [c] st now).2.2 =
      [GwCall.subscribe [c] st] := by
  have h : ¬ ([c] : List χ).isEmpty := by simp
  have hneed : need_subscribe_list ([] : Ledger χ) [c] st = [c] := rfl
  have h2 : ¬ (need_subscribe_list ([] : Ledger χ) [c] st).isEmpty := by
    rw [hneed]
    simp
  have hrefresh : refresh_subscriptions ([] : Ledger χ) [c] st now = [] := rfl
  by_cases h3 : gw.subscribeRet (need_subscribe_list ([] : Ledger χ) [c] st)
      st = RET_OK
  · rw [subscribe_if_needed_sub_ok gw limit [] [c] st now h h2 h3]
    dsimp only
    rw [hneed, hrefresh, evict_empty_ledger]
    rfl
  · rw [subscribe_if_needed_sub_fail gw limit [] [c] st now h h2 h3]
    dsimp only
    rw [hneed, hrefresh, evict_empty_ledger]
    rfl

/-! ### Snapshot assembly lemma -/

theorem gms_nonempty {χ ρ : Type} (gs : GlobalState χ) (now : Nat)
    (maxAgeSec : Int) (gwq : Nat → SnapResp ρ) (codeList : List χ)
    (batchSize : Int) (h : ¬ codeList.isEmpty) :
    get_market_snapshots_by_futu_codes gs now maxAgeSec gwq codeList
      batchSize =
      ((snapshot_chunk_loop gwq
        (chunk_list (safe_batch_size batchSize).toNat codeList) 0).1.map
          (fun chunks => chunks.flatten),
       get_quote_context gs now maxAgeSec,
       (snapshot_chunk_loop gwq
         (chunk_list (safe_batch_size batchSize).toNat codeList) 0).2) := by
  unfold get_market_snapshots_by_futu_codes
  rw [if_neg h]

/-! ### Claims -/

/-- C1, counterexample to the claim as stated: with quota
`_get_subscription_limit = max(1, 1) = 1`, a first call subscribes code
`0` (all gateway calls succeed), and a second call subscribes code `1`
while the eviction's `unsubscribe` raises and the `subscribe` succeeds.
The evicted entry stays in the ledger, the new entry is inserted, and
the ledger ends with 2 > 1 entries: `size(Ledger) ≤ Quota` does NOT
survive a failed unsubscribe. -/
theorem claim_C1_counterexample :
    ¬ ((run_calls (get_subscription_limit (some 1)).toNat
        [CallSpec.mk (gw_all_ok Nat) [0] SubType.QUOTE 1,
         CallSpec.mk (gw_unsub_fail Nat) [1] SubType.QUOTE 2]).length ≤
      (get_subscription_limit (some 1)).toNat) := by
  decide

/-- C1 (amended): for every sequence of `_subscribe_if_needed` calls
starting from an empty ledger, in which every `unsubscribe` issued
during eviction succeeds and each call requests at most Quota codes,
the number of ledger entries is at most the Quota returned by
`_get_subscription_limit` after every call (i.e. after every prefix of
the sequence). -/
theorem claim_C1 {χ : Type} [DecidableEq χ] (env : Option Int)
    (calls : List (CallSpec χ))
    (hok : ∀ c ∈ calls, (∀ cs t, c.gw.unsubOk cs t = true) ∧
      c.codes.length ≤ (get_subscription_limit env).toNat) :
    ∀ k, (run_calls (get_subscription_limit env).toNat
      (calls.take k)).length ≤ (get_subscription_limit env).toNat := by
  intro k
  exact (run_calls_invariant (get_subscription_limit env).toNat (calls.take k)
    (fun c hc => hok c ((List.take_sublist k calls).subset hc))).1

/-- C1 witness: the amended invariant applied to a concrete two-call
scenario with quota 2. -/
theorem claim_C1_witness :
    (∀ c ∈ [CallSpec.mk (gw_all_ok Nat) [0, 1] SubType.QUOTE 5,
        CallSpec.mk (gw_all_ok Nat) [2] SubType.QUOTE 6],
      (∀ cs t, c.gw.unsubOk cs t = true) ∧
        c.codes.length ≤ (get_subscription_limit (some 2)).toNat) ∧
    (∀ k, (run_calls (get_subscription_limit (some 2)).toNat
      ([CallSpec.mk (gw_all_ok Nat) [0, 1] SubType.QUOTE 5,
        CallSpec.mk (gw_all_ok Nat) [2] SubType.QUOTE 6].take k)).length ≤
      (get_subscription_limit (some 2)).toNat) := by
  have hhyp : ∀ c ∈ [CallSpec.mk (gw_all_ok Nat) [0, 1] SubType.QUOTE 5,
      CallSpec.mk (gw_all_ok Nat) [2] SubType.QUOTE 6],
      (∀ cs t, c.gw.unsubOk cs t = true) ∧
        c.codes.length ≤ (get_subscription_limit (some 2)).toNat := by
    intro c hc
    rcases List.mem_cons.mp hc with hc | hc
    · subst hc
      exact ⟨fun cs t => rfl, by decide⟩
    · rcases List.mem_singleton.mp hc with rfl
      exact ⟨fun cs t => rfl, by decide⟩
  exact ⟨hhyp, claim_C1 (some 2) _ hhyp⟩

/-- C2: when eviction must choose victims, the selection splits as
`same ++ other` with `same` exactly the `min(shortfall, #same-type)`
oldest same-feed-type entries of the ledger (every non-chosen same-type
entry has a timestamp at least as large), `other` drawn from the other
feed types only when the same-type entries do not cover the shortfall,
again oldest-first; and concretely, with ledger entries A=1, B=2, C=3
(all one feed type), quota 3 and a new code D requested, exactly A is
unsubscribed and the ledger afterwards holds B, C, D. -/
theorem claim_C2 {χ : Type} [DecidableEq χ] (ledger : Ledger χ)
    (st : SubType) (n : Nat) :
    (∃ same other, select_victims ledger st n = same ++ other ∧
      (∀ p ∈ same, p.1.2 = st) ∧
      (∀ p ∈ other, ¬ p.1.2 = st) ∧
      (∀ p ∈ same, p ∈ ledger) ∧
      (∀ p ∈ other, p ∈ ledger) ∧
      same.length = min n (ledger.filter (fun p => p.1.2 = st)).length ∧
      (n ≤ (ledger.filter (fun p => p.1.2 = st)).length → other = []) ∧
      (∀ p ∈ same, ∀ q ∈ ledger, q.1.2 = st → q ∉ same → p.2 ≤ q.2) ∧
      (∀ p ∈ other, ∀ q ∈ ledger, ¬ q.1.2 = st → q ∉ other → p.2 ≤ q.2)) ∧
    subscribe_if_needed (gw_all_ok Nat) 3
      [((0, SubType.QUOTE), 1), ((1, SubType.QUOTE), 2),
       ((2, SubType.QUOTE), 3)] [3] SubType.QUOTE 10 =
    (RET_OK,
     [((1, SubType.QUOTE), 2), ((2, SubType.QUOTE), 3),
      ((3, SubType.QUOTE), 10)],
     [GwCall.unsubscribe [0] SubType.QUOTE,
      GwCall.subscribe [3] SubType.QUOTE]) := by
  constructor
  · haveI : IsTotal ((χ × SubType) × Nat) (fun a b => a.2 ≤ b.2) :=
      ⟨fun a b => Nat.le_total a.2 b.2⟩
    haveI : IsTrans ((χ × SubType) × Nat) (fun a b => a.2 ≤ b.2) :=
      ⟨fun a b c hab hbc => Nat.le_trans hab hbc⟩
    refine ⟨(List.insertionSort (fun a b => a.2 ≤ b.2)
        (ledger.filter (fun p => p.1.2 = st))).take n,
      (List.insertionSort (fun a b => a.2 ≤ b.2)
        (ledger.filter (fun p => ¬ p.1.2 = st))).take
        (n - ((List.insertionSort (fun a b => a.2 ≤ b.2)
          (ledger.filter (fun p => p.1.2 = st))).take n).length),
      select_victims_eq ledger st n, ?_, ?_, ?_, ?_, ?_, ?_, ?_, ?_⟩
    · intro p hp
      have h1 := (List.take_sublist _ _).subset hp
      have h2 := (List.perm_insertionSort _ _).mem_iff.mp h1
      exact of_decide_eq_true (List.mem_filter.mp h2).2
    · intro p hp
      have h1 := (List.take_sublist _ _).subset hp
      have h2 := (List.perm_insertionSort _ _).mem_iff.mp h1
      exact of_decide_eq_true (List.mem_filter.mp h2).2
    · intro p hp
      have h1 := (List.take_sublist _ _).subset hp
      have h2 := (List.perm_insertionSort _ _).mem_iff.mp h1
      exact (List.mem_filter.mp h2).1
    · intro p hp
      have h1 := (List.take_sublist _ _).subset hp
      have h2 := (List.perm_insertionSort _ _).mem_iff.mp h1
      exact (List.mem_filter.mp h2).1
    · rw [List.length_take, (List.perm_insertionSort _ _).length_eq]
    · intro h
      have hlen : ((List.insertionSort (fun a b => a.2 ≤ b.2)
          (ledger.filter (fun p => p.1.2 = st))).take n).length = n := by
        rw [List.length_take, (List.perm_insertionSort _ _).length_eq]
        omega
      rw [hlen, Nat.sub_self, List.take_zero]
    · intro p hp q hq hqt hqn
      have hpw : List.Pairwise (fun a b => a.2 ≤ b.2)
          (List.insertionSort (fun a b => a.2 ≤ b.2)
            (ledger.filter (fun p => p.1.2 = st))) :=
        List.sorted_insertionSort _ _
      have hq1 : q ∈ ledger.filter (fun p => p.1.2 = st) :=
        List.mem_filter.mpr ⟨hq, by simp [hqt]⟩
      have hq2 : q ∈ List.insertionSort (fun a b => a.2 ≤ b.2)
          (ledger.filter (fun p => p.1.2 = st)) :=
        (List.perm_insertionSort _ _).mem_iff.mpr hq1
      rw [← List.take_append_drop n (List.insertionSort (fun a b => a.2 ≤ b.2)
        (ledger.filter (fun p => p.1.2 = st)))] at hpw hq2
      rcases List.mem_append.mp hq2 with hq3 | hq3
      · exact absurd hq3 hqn
      · exact (List.pairwise_append.mp hpw).2.2 p hp q hq3
    · intro p hp q hq hqt hqn
      have hpw : List.Pairwise (fun a b => a.2 ≤ b.2)
          (List.insertionSort (fun a b => a.2 ≤ b.2)
            (ledger.filter (fun p => ¬ p.1.2 = st))) :=
        List.sorted_insertionSort _ _
      have hq1 : q ∈ ledger.filter (fun p => ¬ p.1.2 = st) :=
        List.mem_filter.mpr ⟨hq, by simp [hqt]⟩
      have hq2 : q ∈ List.insertionSort (fun a b => a.2 ≤ b.2)
          (ledger.filter (fun p => ¬ p.1.2 = st)) :=
        (List.perm_insertionSort _ _).mem_iff.mpr hq1
      rw [← List.take_append_drop
        (n - ((List.insertionSort (fun a b => a.2 ≤ b.2)
          (ledger.filter (fun p => p.1.2 = st))).take n).length)
        (List.insertionSort (fun a b => a.2 ≤ b.2)
          (ledger.filter (fun p => ¬ p.1.2 = st)))] at hpw hq2
      rcases List.mem_append.mp hq2 with hq3 | hq3
      · exact absurd hq3 hqn
      · exact (List.pairwise_append.mp hpw).2.2 p hp q hq3
  · decide

/-- C3: when every requested code is already in the ledger under the
same feed type, `_subscribe_if_needed` returns `RET_OK`, issues no
gateway call at all, keeps the key sequence of the ledger unchanged,
sets the last-used timestamp of every requested entry to `now`, and
leaves every other entry's value untouched. -/
theorem claim_C3 {χ : Type} [DecidableEq χ] (gw : Gateway χ) (limit : Nat)
    (ledger : Ledger χ) (codeList : List χ) (st : SubType) (now : Nat)
    (hall : ∀ c ∈ codeList, (dlookup ledger (sub_key c st)).isSome) :
    (subscribe_if_needed gw limit ledger codeList st now).1 = RET_OK ∧
    (subscribe_if_needed gw limit ledger codeList st now).2.2 = [] ∧
    dkeys (subscribe_if_needed gw limit ledger codeList st now).2.1 =
      dkeys ledger ∧
    (∀ c ∈ codeList,
      dlookup (subscribe_if_needed gw limit ledger codeList st now).2.1
        (sub_key c st) = some now) ∧
    (∀ k : χ × SubType, ¬ (k.2 = st ∧ k.1 ∈ codeList) →
      dlookup (subscribe_if_needed gw limit ledger codeList st now).2.1 k =
        dlookup ledger k) := by
  by_cases h : codeList.isEmpty
  · rw [subscribe_if_needed_nil gw limit ledger codeList st now h]
    have he : codeList = [] := List.isEmpty_iff.mp h
    subst he
    exact ⟨rfl, rfl, rfl, by simp, fun k _ => rfl⟩
  · have h2 : (need_subscribe_list ledger codeList st).isEmpty := by
      rw [List.isEmpty_iff]
      unfold need_subscribe_list
      rw [List.filter_eq_nil_iff]
      intro c hc
      have := hall c hc
      simp only [Option.isNone_iff_eq_none, decide_eq_true_eq]
      intro hnone
      rw [hnone] at this
      simp at this
    rw [subscribe_if_needed_all_present gw limit ledger codeList st now h h2]
    refine ⟨rfl, rfl, dkeys_refresh ledger codeList st now, ?_, ?_⟩
    · intro c hc
      rw [dlookup_refresh]
      rw [if_pos ⟨rfl, hc, hall c hc⟩]
    · intro k hk
      rw [dlookup_refresh]
      rw [if_neg (fun hcond => hk ⟨hcond.1, hcond.2.1⟩)]

/-- C3 witness: a concrete call whose two codes are both present. -/
theorem claim_C3_witness :
    (∀ c ∈ [0, 1],
      (dlookup ([((0, SubType.QUOTE), 1), ((1, SubType.QUOTE), 2)] :
        Ledger Nat) (sub_key c SubType.QUOTE)).isSome) ∧
    (subscribe_if_needed (gw_all_ok Nat) 3
      [((0, SubType.QUOTE), 1), ((1, SubType.QUOTE), 2)] [0, 1]
      SubType.QUOTE 9).1 = RET_OK ∧
    (subscribe_if_needed (gw_all_ok Nat) 3
      [((0, SubType.QUOTE), 1), ((1, SubType.QUOTE), 2)] [0, 1]
      SubType.QUOTE 9).2.2 = [] ∧
    dkeys (subscribe_if_needed (gw_all_ok Nat) 3
      [((0, SubType.QUOTE), 1), ((1, SubType.QUOTE), 2)] [0, 1]
      SubType.QUOTE 9).2.1 =
      dkeys ([((0, SubType.QUOTE), 1), ((1, SubType.QUOTE), 2)] :
        Ledger Nat) ∧
    (∀ c ∈ [0, 1],
      dlookup (subscribe_if_needed (gw_all_ok Nat) 3
        [((0, SubType.QUOTE), 1), ((1, SubType.QUOTE), 2)] [0, 1]
        SubType.QUOTE 9).2.1 (sub_key c SubType.QUOTE) = some 9) :=
  ⟨by decide,
   (claim_C3 (gw_all_ok Nat) 3 [((0, SubType.QUOTE), 1),
     ((1, SubType.QUOTE), 2)] [0, 1] SubType.QUOTE 9 (by decide)).1,
   (claim_C3 (gw_all_ok Nat) 3 [((0, SubType.QUOTE), 1),
     ((1, SubType.QUOTE), 2)] [0, 1] SubType.QUOTE 9 (by decide)).2.1,
   (claim_C3 (gw_all_ok Nat) 3 [((0, SubType.QUOTE), 1),
     ((1, SubType.QUOTE), 2)] [0, 1] SubType.QUOTE 9 (by decide)).2.2.1,
   (claim_C3 (gw_all_ok Nat) 3 [((0, SubType.QUOTE), 1),
     ((1, SubType.QUOTE), 2)] [0, 1] SubType.QUOTE 9 (by decide)).2.2.2.1⟩

/-- C4: when the gateway `subscribe` returns a non-OK code, the call
returns that failure, the ledger is exactly the post-eviction ledger
(evictions are not rolled back), and no needed code is inserted: a code
absent before the call is still absent after it. -/
theorem claim_C4 {χ : Type} [DecidableEq χ] (gw : Gateway χ) (limit : Nat)
    (ledger : Ledger χ) (codeList : List χ) (st : SubType) (now : Nat)
    (hne : need_subscribe_list ledger codeList st ≠ [])
    (hfail : gw.subscribeRet (need_subscribe_list ledger codeList st) st ≠
      RET_OK) :
    (subscribe_if_needed gw limit ledger codeList st now).1 ≠ RET_OK ∧
    (subscribe_if_needed gw limit ledger codeList st now).2.1 =
      (evict_old_subscriptions_if_needed gw limit
        (refresh_subscriptions ledger codeList st now) st
        (need_subscribe_list ledger codeList st).length).1 ∧
    (∀ c ∈ codeList, dlookup ledger (sub_key c st) = none →
      dlookup (subscribe_if_needed gw limit ledger codeList st now).2.1
        (sub_key c st) = none) := by
  have h : ¬ codeList.isEmpty := by
    intro hc
    rw [List.isEmpty_iff] at hc
    subst hc
    exact hne rfl
  have h2 : ¬ (need_subscribe_list ledger codeList st).isEmpty := by
    rw [List.isEmpty_iff]
    exact hne
  rw [subscribe_if_needed_sub_fail gw limit ledger codeList st now h h2 hfail]
  refine ⟨hfail, rfl, ?_⟩
  intro c hc habsent
  rw [dlookup_eq_none_iff] at habsent ⊢
  intro hmem
  refine habsent ?_
  have hsub : (dkeys ((evict_old_subscriptions_if_needed gw limit
      (refresh_subscriptions ledger codeList st now) st
      (need_subscribe_list ledger codeList st).length).1)).Sublist
      (dkeys (refresh_subscriptions ledger codeList st now)) :=
    (evict_fst_sublist gw limit _ st _).map Prod.fst
  have := hsub.subset hmem
  rw [dkeys_refresh] at this
  exact this

/-- C4 witness: quota 1, one present and one absent code, subscribe
fails; the evicted entry stays evicted and the absent code stays out. -/
theorem claim_C4_witness :
    (need_subscribe_list ([((0, SubType.QUOTE), 1)] : Ledger Nat) [1]
      SubType.QUOTE ≠ []) ∧
    ((gw_sub_fail Nat).subscribeRet
      (need_subscribe_list ([((0, SubType.QUOTE), 1)] : Ledger Nat) [1]
        SubType.QUOTE) SubType.QUOTE ≠ RET_OK) ∧
    (subscribe_if_needed (gw_sub_fail Nat) 1 [((0, SubType.QUOTE), 1)] [1]
      SubType.QUOTE 5).1 ≠ RET_OK ∧
    (∀ c ∈ [1], dlookup ([((0, SubType.QUOTE), 1)] : Ledger Nat)
        (sub_key c SubType.QUOTE) = none →
      dlookup (subscribe_if_needed (gw_sub_fail Nat) 1
        [((0, SubType.QUOTE), 1)] [1] SubType.QUOTE 5).2.1
        (sub_key c SubType.QUOTE) = none) :=
  ⟨by decide, by decide,
   (claim_C4 (gw_sub_fail Nat) 1 [((0, SubType.QUOTE), 1)] [1]
     SubType.QUOTE 5 (by decide) (by decide)).1,
   (claim_C4 (gw_sub_fail Nat) 1 [((0, SubType.QUOTE), 1)] [1]
     SubType.QUOTE 5 (by decide) (by decide)).2.2⟩

/-- C5: during eviction the victims are grouped by feed type and exactly
one `unsubscribe` call is issued per group, in group order, regardless
of failures (so no retry, and later groups are still processed after a
failed one); every entry of a group whose `unsubscribe` fails stays in
the ledger; and the subsequent `subscribe` for the new codes is still
attempted: the call trace of `_subscribe_if_needed` is the eviction
trace followed by the `subscribe` call. -/
theorem claim_C5 {χ : Type} [DecidableEq χ] (gw : Gateway χ) (limit : Nat)
    (ledger : Ledger χ) (st : SubType) (incoming : Nat)
    (hpos : incoming ≠ 0)
    (hneed : incoming - (limit - ledger.length) ≠ 0) :
    ((evict_old_subscriptions_if_needed gw limit ledger st incoming).2 =
      (group_by_type (select_victims ledger st
        (incoming - (limit - ledger.length)))).map
        (fun g => GwCall.unsubscribe g.2 g.1)) ∧
    (∀ g ∈ group_by_type (select_victims ledger st
        (incoming - (limit - ledger.length))),
      gw.unsubOk g.2 g.1 = false →
      ∀ c ∈ g.2, sub_key c g.1 ∈ dkeys ledger →
        sub_key c g.1 ∈
          dkeys (evict_old_subscriptions_if_needed gw limit ledger st
            incoming).1) ∧
    (∀ (ledger' : Ledger χ) (codeList : List χ) (now : Nat),
      ¬ codeList.isEmpty → need_subscribe_list ledger' codeList st ≠ [] →
      (subscribe_if_needed gw limit ledger' codeList st now).2.2 =
        (evict_old_subscriptions_if_needed gw limit
          (refresh_subscriptions ledger' codeList st now) st
          (need_subscribe_list ledger' codeList st).length).2 ++
          [GwCall.subscribe (need_subscribe_list ledger' codeList st) st]) := by
  refine ⟨?_, ?_, ?_⟩
  · rw [evict_eq_of_pos gw limit ledger st incoming hpos hneed,
      evict_fold_calls]
    have hfilter : (group_by_type (select_victims ledger st
        (incoming - (limit - ledger.length)))).filter
        (fun g => !g.2.isEmpty) =
        group_by_type (select_victims ledger st
          (incoming - (limit - ledger.length))) := by
      rw [List.filter_eq_self]
      intro a ha
      have hne := group_by_type_ne_nil _ a ha
      simp [List.isEmpty_eq_false.mpr hne]
    rw [hfilter]
    rfl
  · intro g hg hfailg c hc hk
    rw [evict_eq_of_pos gw limit ledger st incoming hpos hneed,
      evict_fold_keys]
    refine ⟨hk, ?_⟩
    intro g' hg' hok' hkin
    obtain ⟨c', hc', heq⟩ := List.mem_map.mp hkin
    have hty : g'.1 = g.1 := congrArg Prod.snd heq
    have hgg : g' = g :=
      List.inj_on_of_nodup_map (group_by_type_fst_nodup _) hg' hg hty
    rw [hgg] at hok'
    rw [hok'] at hfailg
    exact Bool.noConfusion hfailg
  · intro ledger' codeList now hcl hns
    have h2 : ¬ (need_subscribe_list ledger' codeList st).isEmpty := by
      rw [List.isEmpty_iff]
      exact hns
    by_cases h3 : gw.subscribeRet (need_subscribe_list ledger' codeList st)
        st = RET_OK
    · rw [subscribe_if_needed_sub_ok gw limit ledger' codeList st now hcl h2
        h3]
    · rw [subscribe_if_needed_sub_fail gw limit ledger' codeList st now hcl
        h2 h3]

/-- C5 witness: quota 1, ledger holding one entry, one incoming code,
with an `unsubscribe` that raises: the single victim group gets one
unsubscribe call, its entry stays, and `subscribe` is still issued. -/
theorem claim_C5_witness :
    ((1 : Nat) ≠ 0) ∧ ((1 : Nat) - (1 - ([((0, SubType.QUOTE), 1)] :
      Ledger Nat).length) ≠ 0) ∧
    ((evict_old_subscriptions_if_needed (gw_unsub_fail Nat) 1
      [((0, SubType.QUOTE), 1)] SubType.QUOTE 1).2 =
      (group_by_type (select_victims ([((0, SubType.QUOTE), 1)] :
        Ledger Nat) SubType.QUOTE 1)).map
        (fun g => GwCall.unsubscribe g.2 g.1)) ∧
    (∀ g ∈ group_by_type (select_victims ([((0, SubType.QUOTE), 1)] :
        Ledger Nat) SubType.QUOTE 1),
      (gw_unsub_fail Nat).unsubOk g.2 g.1 = false →
      ∀ c ∈ g.2, sub_key c g.1 ∈ dkeys ([((0, SubType.QUOTE), 1)] :
          Ledger Nat) →
        sub_key c g.1 ∈
          dkeys (evict_old_subscriptions_if_needed (gw_unsub_fail Nat) 1
            [((0, SubType.QUOTE), 1)] SubType.QUOTE 1).1) := by
  have h := claim_C5 (gw_unsub_fail Nat) 1 [((0, SubType.QUOTE), 1)]
    SubType.QUOTE 1 (by decide) (by decide)
  exact ⟨by decide, by decide, h.1, h.2.1⟩

/-- C6: `get_market_snapshots_by_futu_codes` splits its input into
consecutive chunks of at most 400 codes that exactly cover the input;
with a gateway answering every query `RET_OK` with rows `data i`, it
issues exactly one query per chunk in chunk order and returns the
per-chunk rows concatenated in chunk order, whose total length is the
sum of the per-chunk row counts; concretely, 900 codes at batch size
400 yield 3 queries of sizes 400, 400, 100, and the rows of the three
chunks concatenated. -/
theorem claim_C6 {χ ρ : Type} (gs : GlobalState χ) (now : Nat)
    (maxAgeSec : Int) (data : Nat → List ρ) (codeList : List χ)
    (batchSize : Int) (hne : ¬ codeList.isEmpty) :
    ((chunk_list (safe_batch_size batchSize).toNat codeList).flatten =
      codeList ∧
    (∀ c ∈ chunk_list (safe_batch_size batchSize).toNat codeList,
      c.length ≤ 400) ∧
    (get_market_snapshots_by_futu_codes gs now maxAgeSec
      (fun i => SnapResp.ret RET_OK (data i)) codeList batchSize).2.2 =
      chunk_list (safe_batch_size batchSize).toNat codeList ∧
    (∃ rows, (get_market_snapshots_by_futu_codes gs now maxAgeSec
        (fun i => SnapResp.ret RET_OK (data i)) codeList batchSize).1 =
        Except.ok rows ∧
      rows = ((List.range (chunk_list (safe_batch_size batchSize).toNat
        codeList).length).map data).flatten ∧
      rows.length = ((List.range (chunk_list (safe_batch_size
        batchSize).toNat codeList).length).map
        (fun j => (data j).length)).sum)) ∧
    ((get_market_snapshots_by_futu_codes (χ := Nat) (ρ := Nat)
      { connCreatedAt := some 0, ledger := [] } 1 1800
      (fun i => SnapResp.ret RET_OK (List.range (i + 1)))
      (List.range 900) 400).2.2).map List.length = [400, 400, 100] ∧
    (get_market_snapshots_by_futu_codes (χ := Nat) (ρ := Nat)
      { connCreatedAt := some 0, ledger := [] } 1 1800
      (fun i => SnapResp.ret RET_OK (List.range (i + 1)))
      (List.range 900) 400).1 = Except.ok [0, 0, 1, 0, 1, 2] := by
  refine ⟨?_, by set_option maxRecDepth 10000 in decide,
    by set_option maxRecDepth 10000 in rfl⟩
  obtain ⟨m, hm⟩ : ∃ m, (safe_batch_size batchSize).toNat = m + 1 :=
    ⟨(safe_batch_size batchSize).toNat - 1, by unfold safe_batch_size; omega⟩
  have hle400 : (safe_batch_size batchSize).toNat ≤ 400 := by
    unfold safe_batch_size
    omega
  have hall : ∀ j, j < (chunk_list (safe_batch_size batchSize).toNat
      codeList).length →
      (fun i => SnapResp.ret (ρ := ρ) RET_OK (data i)) (0 + j) =
        SnapResp.ret RET_OK (data (0 + j)) :=
    fun j _ => rfl
  obtain ⟨htr, dss, hds, hfl⟩ := snapshot_loop_all_ok
    (fun i => SnapResp.ret RET_OK (data i)) data
    (chunk_list (safe_batch_size batchSize).toNat codeList) 0 hall
  have hzero : (fun j => data (0 + j)) = data := by
    funext j
    rw [Nat.zero_add]
  rw [hzero] at hfl
  refine ⟨?_, ?_, ?_, ?_⟩
  · rw [hm]
    exact chunk_list_flatten m codeList
  · intro c hc
    rw [hm] at hc
    have := (chunk_list_mem m codeList c hc).2
    omega
  · rw [gms_nonempty gs now maxAgeSec _ codeList batchSize hne]
    exact htr
  · refine ⟨dss.flatten, ?_, hfl, ?_⟩
    · rw [gms_nonempty gs now maxAgeSec _ codeList batchSize hne]
      dsimp only
      rw [hds]
      rfl
    · rw [hfl, List.length_flatten, List.map_map]
      rfl

/-- C6 witness: the chunk covering applied to the 900-code input. -/
theorem claim_C6_witness :
    (¬ (List.range 900).isEmpty) ∧
    (chunk_list (safe_batch_size 400).toNat (List.range 900)).flatten =
      List.range 900 :=
  ⟨by set_option maxRecDepth 10000 in decide,
   ((claim_C6 (ρ := Nat) { connCreatedAt := some 0, ledger := [] } 1 1800
     (fun i => List.range (i + 1)) (List.range 900) 400
     (by set_option maxRecDepth 10000 in decide)).1).1⟩

/-- C7: if the gateway query of some chunk `j` fails (raises or returns
non-OK) while all earlier chunks succeed, the whole call fails: the
result is an error, no row list is returned (in particular the rows of
the earlier successful chunks are not), and exactly the first `j + 1`
queries were issued; concretely, with 5 codes at batch size 2 (three
chunks) and the second chunk answering a non-OK code, the call returns
the logical error after two queries, and the first chunk's rows are not
returned. -/
theorem claim_C7 {χ ρ : Type} (gs : GlobalState χ) (now : Nat)
    (maxAgeSec : Int) (gwq : Nat → SnapResp ρ) (codeList : List χ)
    (batchSize : Int) (j : Nat) (hne : ¬ codeList.isEmpty)
    (hj : j < (chunk_list (safe_batch_size batchSize).toNat
      codeList).length)
    (hok : ∀ j' < j, ∃ d, gwq j' = SnapResp.ret RET_OK d)
    (hfail : ∀ rc d, gwq j = SnapResp.ret rc d → rc ≠ RET_OK) :
    ((∃ e, (get_market_snapshots_by_futu_codes gs now maxAgeSec gwq codeList
      batchSize).1 = Except.error e) ∧
    (∀ rows, (get_market_snapshots_by_futu_codes gs now maxAgeSec gwq
      codeList batchSize).1 ≠ Except.ok rows) ∧
    (get_market_snapshots_by_futu_codes gs now maxAgeSec gwq codeList
      batchSize).2.2 =
      (chunk_list (safe_batch_size batchSize).toNat codeList).take
        (j + 1)) ∧
    ((get_market_snapshots_by_futu_codes (χ := Nat) (ρ := Nat)
      { connCreatedAt := some 0, ledger := [] } 1 1800
      (fun i => if i = 1 then SnapResp.ret (-1) []
        else SnapResp.ret RET_OK [7]) (List.range 5) 2).1 =
      Except.error SnapErr.logical ∧
    (get_market_snapshots_by_futu_codes (χ := Nat) (ρ := Nat)
      { connCreatedAt := some 0, ledger := [] } 1 1800
      (fun i => if i = 1 then SnapResp.ret (-1) []
        else SnapResp.ret RET_OK [7]) (List.range 5) 2).2.2 =
      [[0, 1], [2, 3]]) := by
  refine ⟨?_, by rfl, by decide⟩
  have hok' : ∀ j' < j, ∃ d, gwq (0 + j') = SnapResp.ret RET_OK d := by
    intro j' hj'
    rw [Nat.zero_add]
    exact hok j' hj'
  have hfail' : ∀ rc d, gwq (0 + j) = SnapResp.ret rc d → rc ≠ RET_OK := by
    rw [Nat.zero_add]
    exact hfail
  obtain ⟨e, he1, he2, _⟩ := snapshot_loop_fail gwq
    (chunk_list (safe_batch_size batchSize).toNat codeList) 0 j hj hok'
    hfail'
  rw [gms_nonempty gs now maxAgeSec gwq codeList batchSize hne]
  dsimp only
  rw [he1, he2]
  exact ⟨⟨e, rfl⟩, fun rows h => Except.noConfusion h, rfl⟩

/-- C7 witness: the fail-fast conclusion applied to the concrete
three-chunk scenario whose second chunk fails. -/
theorem claim_C7_witness :
    ((¬ (List.range 5 : List Nat).isEmpty) ∧
      1 < (chunk_list (safe_batch_size 2).toNat (List.range 5)).length) ∧
    (get_market_snapshots_by_futu_codes (χ := Nat) (ρ := Nat)
      { connCreatedAt := some 0, ledger := [] } 1 1800
      (fun i => if i = 1 then SnapResp.ret (-1) []
        else SnapResp.ret RET_OK [7]) (List.range 5) 2).2.2 =
      (chunk_list (safe_batch_size 2).toNat (List.range 5)).take 2 := by
  refine ⟨⟨by decide, by decide⟩, ?_⟩
  have h := claim_C7 (χ := Nat) (ρ := Nat)
    { connCreatedAt := some 0, ledger := [] } 1 1800
    (fun i => if i = 1 then SnapResp.ret (-1) []
      else SnapResp.ret RET_OK [7]) (List.range 5) 2 1
    (by decide) (by decide)
    (by
      intro j' hj'
      have hz : j' = 0 := by omega
      subst hz
      exact ⟨[7], rfl⟩)
    (by
      intro rc d hrd
      simp only [if_pos rfl] at hrd
      injection hrd with h1 h2
      subst h1
      decide)
  exact h.1.2.2

/-- C8: `_reset_quote_context` (and `close_quote_context`) discards the
connection and leaves the ledger empty; an `get_quote_context` call that
observes an active connection whose age reached the (enabled) maximum
replaces the connection and leaves the ledger empty; and in either case
a code that was subscribed before is treated as not present by the next
`_subscribe_if_needed` call, which issues a fresh `subscribe` gateway
call for it. -/
theorem claim_C8 {χ : Type} [DecidableEq χ] (gs : GlobalState χ)
    (gw : Gateway χ) (limit : Nat) (c : χ) (st : SubType) (now t : Nat)
    (maxAgeSec : Int) (t0 : Nat)
    (hsub : sub_key c st ∈ dkeys gs.ledger)
    (hconn : gs.connCreatedAt = some t0)
    (hmax : 0 < maxAgeSec)
    (hage : maxAgeSec ≤ (t : Int) - (t0 : Int)) :
    reset_quote_context gs = { connCreatedAt := none, ledger := [] } ∧
    close_quote_context gs = { connCreatedAt := none, ledger := [] } ∧
    get_quote_context gs t maxAgeSec =
      { connCreatedAt := some t, ledger := [] } ∧
    (subscribe_if_needed gw limit (reset_quote_context gs).ledger [c] st
      now).2.2 = [GwCall.subscribe [c] st] ∧
    (subscribe_if_needed gw limit (get_quote_context gs t maxAgeSec).ledger
      [c] st now).2.2 = [GwCall.subscribe [c] st] := by
  have hrecycle := get_quote_context_recycle gs t maxAgeSec t0 hconn hmax
    hage
  refine ⟨rfl, rfl, hrecycle, ?_, ?_⟩
  · exact subscribe_trace_empty_ledger gw limit c st now
  · rw [hrecycle]
    exact subscribe_trace_empty_ledger gw limit c st now

/-- C8 witness: a concrete state with one subscribed code, reset and
age-based recycling both followed by a fresh subscribe for it. -/
theorem claim_C8_witness :
    (sub_key 0 SubType.QUOTE ∈
      dkeys (GlobalState.mk (χ := Nat) (some 3) [((0, SubType.QUOTE), 1)]).ledger ∧
      (GlobalState.mk (χ := Nat) (some 3)
        [((0, SubType.QUOTE), 1)]).connCreatedAt = some 3 ∧
      (0 : Int) < 1800 ∧ (1800 : Int) ≤ (2000 : Nat) - ((3 : Nat) : Int)) ∧
    (subscribe_if_needed (gw_all_ok Nat) 300
      (reset_quote_context (GlobalState.mk (χ := Nat) (some 3)
        [((0, SubType.QUOTE), 1)])).ledger [0] SubType.QUOTE 7).2.2 =
      [GwCall.subscribe [0] SubType.QUOTE] ∧
    (subscribe_if_needed (gw_all_ok Nat) 300
      (get_quote_context (GlobalState.mk (χ := Nat) (some 3)
        [((0, SubType.QUOTE), 1)]) 2000 1800).ledger [0] SubType.QUOTE
      7).2.2 = [GwCall.subscribe [0] SubType.QUOTE] := by
  have h := claim_C8 (GlobalState.mk (χ := Nat) (some 3)
    [((0, SubType.QUOTE), 1)]) (gw_all_ok Nat) 300 0 SubType.QUOTE 7 2000
    1800 3 (by decide) (by decide) (by decide) (by decide)
  exact ⟨⟨by decide, by decide, by decide, by decide⟩, h.2.2.2.1, h.2.2.2.2⟩

/-- C9, counterexample to the claim as stated: a snapshot call that hits
a transport-level error (the gateway raises on the first chunk)
propagates the failure WITHOUT invoking `_reset_quote_context`: the
connection stays active and the subscription ledger keeps its entry, so
the final state differs from the reset state.  No caller in the module
resets on transport errors — `_reset_quote_context` is only reached via
`close_quote_context`. -/
theorem claim_C9_counterexample :
    (get_market_snapshots_by_futu_codes (χ := Nat) (ρ := Nat)
      { connCreatedAt := some 0, ledger := [((0, SubType.QUOTE), 1)] } 5
      1800 (fun _ => SnapResp.raise) [0] 400).1 =
      Except.error SnapErr.transport ∧
    (get_market_snapshots_by_futu_codes (χ := Nat) (ρ := Nat)
      { connCreatedAt := some 0, ledger := [((0, SubType.QUOTE), 1)] } 5
      1800 (fun _ => SnapResp.raise) [0] 400).2.1 =
      { connCreatedAt := some 0, ledger := [((0, SubType.QUOTE), 1)] } ∧
    (get_market_snapshots_by_futu_codes (χ := Nat) (ρ := Nat)
      { connCreatedAt := some 0, ledger := [((0, SubType.QUOTE), 1)] } 5
      1800 (fun _ => SnapResp.raise) [0] 400).2.1 ≠
      reset_quote_context
        { connCreatedAt := some 0, ledger := [((0, SubType.QUOTE), 1)] } :=
  ⟨by rfl, by decide, by decide⟩

/-- C9 (amended): `get_market_snapshots_by_futu_codes` never invokes
`reset()` — on a transport-level gateway error (all earlier chunks
succeeding) it propagates the transport failure while the connection
and ledger state stay exactly as `get_quote_context` left them; in
particular, when the connection is active and not due for age-based
recycling, the state is completely untouched. -/
theorem claim_C9 {χ ρ : Type} (gs : GlobalState χ) (now : Nat)
    (maxAgeSec : Int) (gwq : Nat → SnapResp ρ) (codeList : List χ)
    (batchSize : Int) (j : Nat) (hne : ¬ codeList.isEmpty)
    (hj : j < (chunk_list (safe_batch_size batchSize).toNat
      codeList).length)
    (hok : ∀ j' < j, ∃ d, gwq j' = SnapResp.ret RET_OK d)
    (hraise : gwq j = SnapResp.raise) :
    (get_market_snapshots_by_futu_codes gs now maxAgeSec gwq codeList
      batchSize).1 = Except.error SnapErr.transport ∧
    (get_market_snapshots_by_futu_codes gs now maxAgeSec gwq codeList
      batchSize).2.1 = get_quote_context gs now maxAgeSec ∧
    (∀ t0, gs.connCreatedAt = some t0 →
      ¬ (0 < maxAgeSec ∧ maxAgeSec ≤ (now : Int) - (t0 : Int)) →
      (get_market_snapshots_by_futu_codes gs now maxAgeSec gwq codeList
        batchSize).2.1 = gs) := by
  have hok' : ∀ j' < j, ∃ d, gwq (0 + j') = SnapResp.ret RET_OK d := by
    intro j' hj'
    rw [Nat.zero_add]
    exact hok j' hj'
  have hfail' : ∀ rc d, gwq (0 + j) = SnapResp.ret rc d → rc ≠ RET_OK := by
    rw [Nat.zero_add]
    intro rc d h
    rw [hraise] at h
    exact SnapResp.noConfusion h
  obtain ⟨e, he1, _, he3⟩ := snapshot_loop_fail gwq
    (chunk_list (safe_batch_size batchSize).toNat codeList) 0 j hj hok'
    hfail'
  have he : e = SnapErr.transport := he3 (by rw [Nat.zero_add]; exact hraise)
  subst he
  rw [gms_nonempty gs now maxAgeSec gwq codeList batchSize hne]
  dsimp only
  rw [he1]
  refine ⟨rfl, rfl, ?_⟩
  intro t0 ht0 hcond
  show get_quote_context gs now maxAgeSec = gs
  unfold get_quote_context
  rw [ht0]
  dsimp only
  rw [if_neg hcond]

/-- C9 witness: the amended no-reset behaviour applied to the concrete
transport failure of the counterexample state. -/
theorem claim_C9_witness :
    ((¬ ([0] : List Nat).isEmpty) ∧
      0 < (chunk_list (safe_batch_size 400).toNat ([0] : List Nat)).length) ∧
    (get_market_snapshots_by_futu_codes (χ := Nat) (ρ := Nat)
      { connCreatedAt := some 0, ledger := [((0, SubType.QUOTE), 1)] } 5
      1800 (fun _ => SnapResp.raise) [0] 400).2.1 =
      get_quote_context
        { connCreatedAt := some 0, ledger := [((0, SubType.QUOTE), 1)] } 5
        1800 := by
  have h := claim_C9 (χ := Nat) (ρ := Nat)
    { connCreatedAt := some 0, ledger := [((0, SubType.QUOTE), 1)] } 5 1800
    (fun _ => SnapResp.raise) [0] 400 0 (by decide) (by decide)
    (fun j' hj' => absurd hj' (by omega)) rfl
  exact ⟨⟨by decide, by decide⟩, h.2.1⟩

/-- C10: for every `batch_size` argument (zero, negative or above 400
included) the clamped chunk size `max(1, min(batch_size, 400))` lies
between 1 and 400, so every issued snapshot query carries between 1 and
400 codes and the chunking loop's step is positive; and an empty input
returns an empty result without touching the connection or issuing any
query. -/
theorem claim_C10 {χ ρ : Type} (gs : GlobalState χ) (now : Nat)
    (maxAgeSec : Int) (gwq : Nat → SnapResp ρ) (codeList : List χ)
    (batchSize : Int) :
    (1 ≤ (safe_batch_size batchSize).toNat ∧
      (safe_batch_size batchSize).toNat ≤ 400) ∧
    (∀ q ∈ (get_market_snapshots_by_futu_codes gs now maxAgeSec gwq codeList
      batchSize).2.2, 1 ≤ q.length ∧ q.length ≤ 400) ∧
    get_market_snapshots_by_futu_codes gs now maxAgeSec gwq ([] : List χ)
      batchSize = (Except.ok [], gs, []) := by
  have h1 : 1 ≤ (safe_batch_size batchSize).toNat := by
    unfold safe_batch_size
    omega
  have h2 : (safe_batch_size batchSize).toNat ≤ 400 := by
    unfold safe_batch_size
    omega
  refine ⟨⟨h1, h2⟩, ?_, rfl⟩
  intro q hq
  by_cases h : codeList.isEmpty
  · unfold get_market_snapshots_by_futu_codes at hq
    rw [if_pos h] at hq
    simp at hq
  · rw [gms_nonempty gs now maxAgeSec gwq codeList batchSize h] at hq
    dsimp only at hq
    have hmem := snapshot_loop_trace_subset gwq _ 0 q hq
    obtain ⟨m, hm⟩ : ∃ m, (safe_batch_size batchSize).toNat = m + 1 :=
      ⟨(safe_batch_size batchSize).toNat - 1, by omega⟩
    rw [hm] at hmem
    have hc := chunk_list_mem m codeList q hmem
    have hx : 0 < q.length := List.length_pos.mpr hc.1
    have hy := hc.2
    omega

/-- C10 witness: batch size `-7` is clamped to 1; both singleton chunks
of a two-code input are queried and each carries one code. -/
theorem claim_C10_witness :
    ((1 ≤ (safe_batch_size (-7)).toNat ∧
      (safe_batch_size (-7)).toNat ≤ 400) ∧
    ([0] ∈ (get_market_snapshots_by_futu_codes (χ := Nat) (ρ := Nat)
      { connCreatedAt := some 0, ledger := [] } 1 1800
      (fun _ => SnapResp.ret RET_OK ([] : List Nat)) [0, 1] (-7)).2.2) ∧
    (1 ≤ ([0] : List Nat).length ∧ ([0] : List Nat).length ≤ 400)) :=
  ⟨(claim_C10 (ρ := Nat) { connCreatedAt := some 0, ledger := [] } 1 1800
     (fun _ => SnapResp.ret RET_OK ([] : List Nat)) [0, 1] (-7)).1,
   by decide,
   (claim_C10 (ρ := Nat) { connCreatedAt := some 0, ledger := [] } 1 1800
     (fun _ => SnapResp.ret RET_OK ([] : List Nat)) [0, 1] (-7)).2.1 [0]
     (by decide)⟩

end FutuData
